import Mathlib

/-!
Verification of the `pyrsa.rdm.calc` dissimilarity-computation engine.

The Python source `src/pyrsa/rdm/calc.py` is embedded shallowly: measurement
matrices become `List (List ℚ)`, fallible code returns `Except PyErr`, and the
dataset / RDM collaborators (which live outside the staged sources) are
modelled from the specification's interface contracts.  External numerical
library routines (`np.sqrt`, `np.log`, `np.linalg.inv`) are abstracted as
parameters, since none of the verified properties depend on their values.
-/

namespace PyRSA

/-- Python exception kinds that the embedded code can raise. -/
inductive PyErr
  | valueError (msg : String)
  | keyError
  | indexError
  | nameError
  | typeError
  | assertionError (msg : String)
  | notImplementedError
deriving DecidableEq, Repr

instance {ε α : Type} [DecidableEq ε] [DecidableEq α] :
    DecidableEq (Except ε α) := fun a b =>
  match a, b with
  | .ok x, .ok y =>
      if h : x = y then .isTrue (by rw [h]) else .isFalse (by simp [h])
  | .error x, .error y =>
      if h : x = y then .isTrue (by rw [h]) else .isFalse (by simp [h])
  | .ok _, .error _ => .isFalse (by simp)
  | .error _, .ok _ => .isFalse (by simp)

abbrev Vec := List ℚ
abbrev Mat := List (List ℚ)

/-- Dot product of two vectors (`np.dot` / one row of an einsum). -/
def dotQ (a b : Vec) : ℚ := (List.zipWith (· * ·) a b).sum

/-- Elementwise difference of two vectors. -/
def vsub (a b : Vec) : Vec := List.zipWith (· - ·) a b

/-- `np.mean` of a vector: sum divided by length. -/
def rowMean (v : Vec) : ℚ := v.sum / (v.length : ℚ)

/-- Row `i` of a matrix (`measurements[i]`). -/
def row (M : Mat) (i : ℕ) : Vec := M.getD i []

/-- `shape[1]` of a 2-D array: the common row length (first row's length). -/
def shape1 (M : Mat) : ℕ := (M.headD []).length

/-- Matrix-vector product `M @ v`. -/
def matvec (M : Mat) (v : Vec) : Vec := M.map (fun r => dotQ r v)

/-- Entrywise matrix sum `A + B`. -/
def matAdd (A B : Mat) : Mat := List.zipWith vsum A B
  where vsum (a b : Vec) : Vec := List.zipWith (· + ·) a b

/-- `v - mean(v)`: centre a vector by its channel mean. -/
def centerVec (v : Vec) : Vec := v.map (fun x => x - rowMean v)

/-- `np.mean(rows, axis=0)`: entrywise mean of a stack of equal-length rows. -/
def vecMean (rows : Mat) : Vec :=
  (List.range (shape1 rows)).map fun ch =>
    ((rows.map fun r => r.getD ch 0).sum) / (rows.length : ℚ)

/-- Mean along axis 0 of a list of rows (`np.array(rdms).mean(axis=0)`). -/
def meanAxis0 (xs : Mat) : Vec :=
  (List.range (shape1 xs)).map fun k =>
    ((xs.map fun r => r.getD k 0).sum) / (xs.length : ℚ)

/-- The canonical upper-triangle pair enumeration: for `i` from `0` to `n-1`,
`j` from `i+1` to `n-1`, in that order — exactly the double loop
`for i in range(n): for j in range(i+1, n):` of the source. -/
def pairsUpper (n : ℕ) : List (ℕ × ℕ) :=
  ((List.range n).map fun i =>
    (List.range (n - i - 1)).map fun t => (i, i + 1 + t)).flatten

/-- `_calc_pairwise_differences(measurements)`: the `n*(n-1)/2 × m` matrix whose
`k`-th row is `measurements[i] - measurements[j]` for the `k`-th canonical
pair `(i, j)`. -/
def calc_pairwise_differences (measurements : Mat) : Mat :=
  (pairsUpper measurements.length).map fun p =>
    vsub (row measurements p.1) (row measurements p.2)

lemma list_sum_map_range (f : ℕ → ℕ) (n : ℕ) :
    ((List.range n).map f).sum = ∑ i ∈ Finset.range n, f i := by
  induction n with
  | zero => simp
  | succ n ih => rw [List.range_succ]; simp [ih, Finset.sum_range_succ]

lemma length_pairsUpper (n : ℕ) : (pairsUpper n).length = n * (n - 1) / 2 := by
  have h : (pairsUpper n).length = ∑ i ∈ Finset.range n, (n - i - 1) := by
    simp only [pairsUpper, List.length_flatten, List.map_map]
    rw [← list_sum_map_range (fun i => n - i - 1) n]
    congr 1
    apply List.map_congr_left
    intro i _
    simp
  rw [h]
  have h2 : ∑ i ∈ Finset.range n, (n - i - 1) = ∑ i ∈ Finset.range n, i := by
    have := Finset.sum_range_reflect (fun i => i) n
    calc ∑ i ∈ Finset.range n, (n - i - 1)
        = ∑ i ∈ Finset.range n, (n - 1 - i) := by
          apply Finset.sum_congr rfl; intro i _; omega
      _ = ∑ i ∈ Finset.range n, i := Finset.sum_range_reflect (fun i => i) n
  rw [h2, Finset.sum_range_id]

lemma length_calc_pairwise_differences (M : Mat) :
    (calc_pairwise_differences M).length = M.length * (M.length - 1) / 2 := by
  simp [calc_pairwise_differences, length_pairsUpper]

/-- Insert a value into a sorted duplicate-free list, keeping it sorted and
duplicate-free. -/
def insertUnique (x : ℕ) : List ℕ → List ℕ
  | [] => [x]
  | y :: ys =>
      if x < y then x :: y :: ys
      else if x = y then y :: ys
      else y :: insertUnique x ys

/-- `np.unique`: the sorted list of distinct values of a list of labels. -/
def npUnique (l : List ℕ) : List ℕ := l.foldr insertUnique []

lemma mem_insertUnique {x a : ℕ} {l : List ℕ} :
    x ∈ insertUnique a l ↔ x = a ∨ x ∈ l := by
  induction l with
  | nil => simp [insertUnique]
  | cons y ys ih =>
    unfold insertUnique
    split
    · simp only [List.mem_cons]
    · split
      · next h1 h2 =>
        subst h2
        simp only [List.mem_cons]
        tauto
      · simp only [List.mem_cons, ih]
        tauto

lemma mem_npUnique {x : ℕ} {l : List ℕ} : x ∈ npUnique l ↔ x ∈ l := by
  induction l with
  | nil => simp [npUnique]
  | cons y ys ih =>
    simp only [npUnique, List.foldr_cons, List.mem_cons]
    rw [show ys.foldr insertUnique [] = npUnique ys from rfl] at *
    rw [mem_insertUnique, ih]

/-- Modelled from the spec: the tabular dataset collaborator — "rows =
observations, columns = channels, with descriptor mappings" (§1 Out of scope,
§6).  Descriptor labels are natural numbers; `obs_descriptors` maps a
descriptor name to one label per observation. -/
structure Dataset where
  measurements : Mat
  obs_descriptors : List (String × List ℕ)
deriving DecidableEq, Repr

/-- `dataset.n_channel`: the channel count, `measurements.shape[1]`. -/
def Dataset.n_channel (d : Dataset) : ℕ := shape1 d.measurements

/-- Look a descriptor mapping up by name (`dataset.obs_descriptors[key]`). -/
def Dataset.lookupDesc (d : Dataset) (k : String) : Option (List ℕ) :=
  (d.obs_descriptors.find? fun p => p.1 = k).map Prod.snd

/-- `dataset.obs_descriptors[key] = v`: replace or append the mapping. -/
def Dataset.setDesc (d : Dataset) (k : String) (v : List ℕ) : Dataset :=
  if d.obs_descriptors.any fun p => p.1 = k then
    { d with obs_descriptors :=
        d.obs_descriptors.map fun p => if p.1 = k then (k, v) else p }
  else
    { d with obs_descriptors := d.obs_descriptors ++ [(k, v)] }

/-- Keep the rows of `xs` whose mask entry is true. -/
def selectRows {α : Type} (xs : List α) (mask : List Bool) : List α :=
  ((xs.zip mask).filter fun p => p.2).map Prod.fst

/-- Modelled from the spec: the dataset collaborator's subsetting operation
"`subset_obs(key, value) -> dataset`" (§6) — retain the observations whose
label under `key` lies in `vals`, filtering the measurements and every
descriptor mapping in parallel. -/
def Dataset.subset_obs (d : Dataset) (k : String) (vals : List ℕ) :
    Except PyErr Dataset :=
  match d.lookupDesc k with
  | none => .error .keyError
  | some labels =>
    let mask := labels.map fun v => decide (v ∈ vals)
    .ok { measurements := selectRows d.measurements mask,
          obs_descriptors :=
            d.obs_descriptors.map fun p => (p.1, selectRows p.2 mask) }

/-- Modelled from the spec: the dataset collaborator's sort operation
"`sort_by(key)`" (§6), which `calc_rdm_crossnobis`'s docstring documents as
sorting the dataset in place ("the dataset is initially sorted according to
the descriptor").  A stable sort by ascending label: observations are
regrouped by ascending label value, original order kept within a group. -/
def Dataset.sort_by (d : Dataset) (k : String) : Except PyErr Dataset :=
  match d.lookupDesc k with
  | none => .error .keyError
  | some labels =>
    let idx := (npUnique labels).map (fun v =>
      (List.range labels.length).filter fun i => labels.getD i 0 = v) |>.flatten
    .ok { measurements := idx.map fun i => row d.measurements i,
          obs_descriptors :=
            d.obs_descriptors.map fun p => (p.1, idx.map fun i => p.2.getD i 0) }

/-- Modelled from the spec: the pattern averager, "`average(dataset, group_key)
-> (matrix, labels, group_key)` … groups observations by `group_key`'s value,
computes the arithmetic mean measurement vector per distinct value, and
returns labels in the distinct-value enumeration order used by the dataset's
native grouping" (§4.2); the grouping order is `np.unique`'s sorted order. -/
def average_dataset_by (d : Dataset) (k : String) :
    Except PyErr (Mat × List ℕ) :=
  match d.lookupDesc k with
  | none => .error .keyError
  | some labels =>
    let values := npUnique labels
    .ok (values.map fun v =>
           vecMean (selectRows d.measurements (labels.map fun x => decide (x = v))),
         values)

/-- Modelled from the spec: the RDM container collaborator — "stores one or
more condensed dissimilarity vectors plus … descriptor mappings, with a
concatenation operation" (§1). -/
structure RDMs where
  dissimilarities : Mat
  dissimilarity_measure : String
  rdm_descriptors : List (String × List ℚ)
deriving DecidableEq, Repr, Inhabited

/-- Wrap one already-condensed dissimilarity vector
(`RDMs(dissimilarities=np.array([rdm]), ...)`). -/
def mkRDMsVec (v : Vec) (measureTag : String) : RDMs :=
  ⟨[v], measureTag, []⟩

/-- Modelled from the spec: the RDM container's "condensed vector" invariant
(§3) — a square dissimilarity matrix handed to the constructor is stored as
its upper-triangle flattening in canonical order, excluding the diagonal. -/
def squareToVec (m : Mat) : Vec :=
  (pairsUpper m.length).map fun p => (m.getD p.1 []).getD p.2 0

/-- Wrap one square dissimilarity matrix, condensing it. -/
def mkRDMsSquare (m : Mat) (measureTag : String) : RDMs :=
  ⟨[squareToVec m], measureTag, []⟩

/-- Modelled from the spec: the RDM container's concatenation, "merging a
sequence of single/multi-RDM results into one collection preserving order"
(§6). -/
def concatRDMs (l : List RDMs) : RDMs :=
  ⟨(l.map RDMs.dissimilarities).flatten,
   (l.headD default).dissimilarity_measure, []⟩

/-- A noise-precision specification as `calc_rdm` receives it: absent, one
matrix, a sequence of specifications, or an (integer-keyed) mapping of
specifications. -/
inductive Noise
  | nothing
  | matrix (m : Mat)
  | listN (l : List Noise)
  | dictN (l : List (ℕ × Noise))

/-- `d[k]` on an integer-keyed Python mapping. -/
def lookupN (l : List (ℕ × Noise)) (k : ℕ) : Option Noise :=
  (l.find? fun p => p.1 = k).map Prod.snd

/-- The external numerical routines used by the engine — `np.sqrt`, `np.log`
and `np.linalg.inv` — abstracted as parameters: no verified property depends
on their values. -/
structure NumOps where
  sqrtQ : ℚ → ℚ
  logQ : ℚ → ℚ
  invQ : Mat → Mat

/-- `np.all(noise.shape == (n_channel, n_channel))` for a 2-D array. -/
def matShapeOk (m : Mat) (nc : ℕ) : Bool :=
  m.length = nc && m.all fun r => r.length = nc

lemma sizeOf_lookupN_lt {l : List (ℕ × Noise)} {k : ℕ} {v : Noise}
    (h : lookupN l k = some v) : sizeOf v < sizeOf l := by
  unfold lookupN at h
  rcases Option.map_eq_some'.mp h with ⟨p, hf, hv⟩
  have hm : p ∈ l := List.mem_of_find?_eq_some hf
  have hs := List.sizeOf_lt_of_mem hm
  cases p with
  | mk a b =>
    simp only [Prod.mk.sizeOf_spec] at hs
    simp only at hv
    subst hv
    omega

/-!
`_check_noise(noise, n_channel)` from the source, branch for branch.
A Python `dict` satisfies `isinstance(noise, Iterable)`, so a mapping is
handled by the sequence branch — which runs
`for i in range(len(noise)): noise[i] = _check_noise(noise[i], n_channel)`,
i.e. integer-position key lookups into the mapping; the source's later
`isinstance(noise, dict)` branch is unreachable.  `checkDictOrder` replays
that loop's lookups (reading the original values, as Python does: each key is
read before it is reassigned, and reassignment never touches a later key),
and `checkDictVals` produces the loop's final mapping on success, where the
key set is exactly `0..len-1` and every entry has been revalidated.
-/
mutual

/-- `_check_noise(noise, n_channel)`: recursive noise-specification check. -/
def check_noise (nc : ℕ) : Noise → Except PyErr Noise
  | .nothing => .ok .nothing
  | .matrix m =>
      if matShapeOk m nc then .ok (.matrix m)
      else .error (.assertionError "")
  | .listN l => (checkList nc l).map Noise.listN
  | .dictN l =>
      match checkDictOrder nc l (List.range l.length) with
      | .error e => .error e
      | .ok _ => (checkDictVals nc l).map Noise.dictN
termination_by n => (sizeOf n, 0)

/-- The sequence branch's loop over elements. -/
def checkList (nc : ℕ) : List Noise → Except PyErr (List Noise)
  | [] => .ok []
  | x :: xs => do
      let y ← check_noise nc x
      let ys ← checkList nc xs
      pure (y :: ys)
termination_by l => (sizeOf l, 0)

/-- The loop's position lookups `noise[0], noise[1], …` over a mapping. -/
def checkDictOrder (nc : ℕ) (l : List (ℕ × Noise)) :
    List ℕ → Except PyErr Unit
  | [] => .ok ()
  | i :: is =>
      match h : lookupN l i with
      | none => .error .keyError
      | some v => do
          let _ ← check_noise nc v
          checkDictOrder nc l is
termination_by keys => (sizeOf l, keys.length + 1)
decreasing_by
  · exact Prod.Lex.left _ _ (sizeOf_lookupN_lt h)
  · exact Prod.Lex.right _ (by simp [List.length_cons])

/-- The loop's final mapping on success: every entry revalidated in place. -/
def checkDictVals (nc : ℕ) : List (ℕ × Noise) → Except PyErr (List (ℕ × Noise))
  | [] => .ok []
  | (k, v) :: xs => do
      let v' ← check_noise nc v
      let xs' ← checkDictVals nc xs
      pure ((k, v') :: xs')
termination_by l => (sizeOf l, 0)

end

/-- One pass of `cv_descriptor[desc == i_val] = np.arange(n_repeats)`: the
positions of `desc` carrying label `v` receive `ctr, ctr+1, …` in positional
order; all other positions keep their current `cv` entry. -/
def assignFolds (v : ℕ) : List ℕ → List ℕ → ℕ → List ℕ
  | [], _, _ => []
  | _ :: _, [], _ => []
  | l :: ds, c :: cv, ctr =>
      if l = v then ctr :: assignFolds v ds cv (ctr + 1)
      else c :: assignFolds v ds cv ctr

/-- `_gen_default_cv_descriptor(dataset, descriptor)`: derive default
cross-validation folds, asserting that every distinct value of the descriptor
occurs equally often.  `counts[0]` on an empty dataset is an index error. -/
def gen_default_cv_descriptor (d : Dataset) (descriptor : String) :
    Except PyErr (List ℕ) :=
  match d.lookupDesc descriptor with
  | none => .error .keyError
  | some desc =>
    let values := npUnique desc
    let counts := values.map fun v => desc.count v
    match counts with
    | [] => .error .indexError
    | c0 :: _ =>
      if counts.all fun c => c = c0 then
        .ok (values.foldl (fun cv v => assignFolds v desc cv 0)
              (desc.map fun _ => 0))
      else
        .error (.assertionError
          "cv_descriptor generation failed: different number of observations per pattern")

/-- `_parse_input(dataset, descriptor)`: with no descriptor every observation
is its own pattern; otherwise average by the descriptor. -/
def parse_input (d : Dataset) (descriptor : Option String) :
    Except PyErr (Mat × List ℕ × String) :=
  match descriptor with
  | none => .ok (d.measurements, List.range d.measurements.length, "pattern")
  | some key => do
      let (m, desc) ← average_dataset_by d key
      pure (m, desc, key)

/-- `calc_rdm_euclid(dataset, descriptor)`: mean-squared pairwise difference
per channel over the averaged patterns.  The returned dataset is the caller's
dataset after the call (unchanged: this estimator performs no mutation). -/
def calc_rdm_euclid (d : Dataset) (descriptor : Option String) :
    Except PyErr (RDMs × Dataset) := do
  let (measurements, _, _) ← parse_input d descriptor
  let diff := calc_pairwise_differences measurements
  let rdm := diff.map fun r => dotQ r r / (shape1 measurements : ℚ)
  pure (mkRDMsVec rdm "euclidean", d)

/-- `calc_rdm_correlation(dataset, descriptor)`: centre each averaged pattern,
L2-normalize (via the external square root), and store the full `1 - ma @
ma.T` square matrix, which the RDM container condenses. -/
def calc_rdm_correlation (ops : NumOps) (d : Dataset)
    (descriptor : Option String) : Except PyErr (RDMs × Dataset) := do
  let (ma, _, _) ← parse_input d descriptor
  let ma1 := ma.map centerVec
  let ma2 := ma1.map fun r => r.map fun x => x / ops.sqrtQ (dotQ r r)
  let sq := ma2.map fun ri => ma2.map fun rj => 1 - dotQ ri rj
  pure (mkRDMsSquare sq "correlation", d)

/-- `calc_rdm_mahalanobis(dataset, descriptor, noise)`: precision-weighted
pairwise bilinear form; with absent noise it delegates to the Euclidean
estimator. -/
def calc_rdm_mahalanobis (d : Dataset) (descriptor : Option String)
    (noise : Noise) : Except PyErr (RDMs × Dataset) :=
  match noise with
  | .nothing => calc_rdm_euclid d descriptor
  | _ => do
    let (measurements, _, _) ← parse_input d descriptor
    let noise1 ← check_noise d.n_channel noise
    match noise1 with
    | .matrix nm =>
        let diff := calc_pairwise_differences measurements
        let diff2 := diff.map (matvec nm)
        let rdm := List.zipWith
          (fun a b => dotQ a b / (shape1 measurements : ℚ)) diff diff2
        pure (mkRDMsVec rdm "Mahalanobis", d)
    | _ => .error .typeError

/-- The additive-shrinkage prior `(x + λ·w)/(1 + w)` applied entrywise. -/
def priorShift (m : Mat) (prior_lambda prior_weight : ℚ) : Mat :=
  m.map fun r => r.map fun x =>
    (x + prior_lambda * prior_weight) / (1 + prior_weight)

/-- `calc_rdm_poisson(dataset, descriptor, prior_lambda, prior_weight)`:
symmetrized Poisson KL-divergence surrogate on prior-shrunk averages. -/
def calc_rdm_poisson (ops : NumOps) (d : Dataset) (descriptor : Option String)
    (prior_lambda prior_weight : ℚ) : Except PyErr (RDMs × Dataset) := do
  let (measurements0, _, _) ← parse_input d descriptor
  let measurements := priorShift measurements0 prior_lambda prior_weight
  let diff := calc_pairwise_differences measurements
  let diff_log := calc_pairwise_differences (measurements.map fun r => r.map ops.logQ)
  let rdm := List.zipWith
    (fun a b => dotQ a b / (shape1 measurements : ℚ)) diff diff_log
  pure (mkRDMsVec rdm "poisson", d)

/-- `_calc_magnitude_cv(measurements, subtract_mean)`: leave-one-observation-
out cross-validated magnitude estimate with signed square root. -/
def calc_magnitude_cv (ops : NumOps) (measurements : Mat)
    (subtract_mean : Bool) : ℚ :=
  let n := measurements.length
  let ests := (List.range n).map fun a =>
    let groupA := row measurements a
    let groupB := vecMean (measurements.eraseIdx a)
    let gA := if subtract_mean then centerVec groupA else groupA
    let gB := if subtract_mean then centerVec groupB else groupB
    dotQ gA gB
  let sq := ests.sum / (n : ℚ)
  (if 0 < sq then 1 else if sq < 0 then -1 else 0) * ops.sqrtQ |sq|

/-- `calc_rdm_correlation_cv(dataset, descriptor)`: the correlation formula
with cross-validated magnitude estimates as denominators.  Note the source
performs no explicit `descriptor is None` check: with `None` it proceeds into
`_parse_input` and then calls `dataset.subset_obs('pattern', …)`. -/
def calc_rdm_correlation_cv (ops : NumOps) (d : Dataset)
    (descriptor : Option String) : Except PyErr (RDMs × Dataset) := do
  let (avgs, desc, descKey) ← parse_input d descriptor
  let mags ← desc.mapM fun v => do
    let sub ← d.subset_obs descKey [v]
    pure (calc_magnitude_cv ops sub.measurements true)
  let centered := avgs.map centerVec
  let n_cond := desc.length
  let rdm := (pairsUpper n_cond).map fun p =>
    1 - dotQ (centered.getD p.1 []) (centered.getD p.2 [])
          / (mags.getD p.1 0 * mags.getD p.2 0)
  pure (mkRDMsVec rdm "correlation_cv", d)

/-- `_calc_rdm_crossnobis_single(measurements1, measurements2, noise)`:
cross-fold bilinear form `diff₁ᵏ · (noise · diff₂ᵏ) / n_channel` per pair. -/
def calc_rdm_crossnobis_single (m1 m2 : Mat) (noise : Mat) : Vec :=
  let diff1 := calc_pairwise_differences m1
  let diff2 := calc_pairwise_differences m2
  List.zipWith (fun a b => dotQ a (matvec noise b) / (shape1 m1 : ℚ)) diff1 diff2

/-- The `'cv_desc'` resolution prologue shared by `calc_rdm_crossnobis` and
`calc_rdm_poisson_cv` (source lines 360–363 and 478–481): derive and inject
default fold labels when no `cv_descriptor` is supplied. -/
def resolveCv (d0 : Dataset) (descKey : String) :
    Option String → Except PyErr (Dataset × String)
  | none => do
      let cv ← gen_default_cv_descriptor d0 descKey
      pure (d0.setDesc "cv_desc" cv, "cv_desc")
  | some k => pure (d0, k)

/-- `dataset.obs_descriptors[cv_descriptor]` (source line 365/484). -/
def lookupCvl (d2 : Dataset) (cvKey : String) : Except PyErr (List ℕ) :=
  match d2.lookupDesc cvKey with
  | none => .error .keyError
  | some l => .ok l

/-- One iteration of the leave-one-fold-out loop of `calc_rdm_crossnobis`
(source lines 368–393): average train (all other folds) and test (the fold)
by the pattern descriptor and form the cross-fold products pair by pair. -/
def crossnobis_fold (d2 : Dataset) (cvKey descKey : String)
    (cv_folds : List ℕ) (noiseMat : Option Mat) (fold : ℕ) :
    Except PyErr Vec := do
  let data_test ← d2.subset_obs cvKey [fold]
  let data_train ← d2.subset_obs cvKey (cv_folds.filter fun x => x ≠ fold)
  let mtr ← average_dataset_by data_train descKey
  let mte ← average_dataset_by data_test descKey
  let m_train := mtr.1
  let m_test := mte.1
  let n_cond := m_train.length
  pure ((pairsUpper n_cond).map fun p =>
    let diff_train := vsub (row m_train p.1) (row m_train p.2)
    let diff_test := vsub (row m_test p.1) (row m_test p.2)
    match noiseMat with
    | none => rowMean (List.zipWith (· * ·) diff_train diff_test)
    | some nm => rowMean (List.zipWith (· * ·) diff_train (matvec nm diff_test)))

/-- The full leave-one-fold-out loop (source lines 368–393). -/
def crossnobisFolds (d2 : Dataset) (cvKey descKey : String)
    (cv_folds : List ℕ) (noiseMat : Option Mat) : Except PyErr Mat :=
  cv_folds.mapM (crossnobis_fold d2 cvKey descKey cv_folds noiseMat)

/-- `noise[i]` on the per-fold collection in the list-of-noises branch. -/
def noiseIdx : Noise → ℕ → Except PyErr Noise
  | .listN l, i =>
      match l.get? i with
      | some v => .ok v
      | none => .error .indexError
  | .dictN l, i =>
      match lookupN l i with
      | some v => .ok v
      | none => .error .keyError
  | _, _ => .error .typeError

/-- `np.linalg.inv(x)` as the engine calls it: defined on matrices. -/
def invNoise (ops : NumOps) : Noise → Except PyErr Mat
  | .matrix nm => .ok (ops.invQ nm)
  | _ => .error .typeError

/-- The per-fold averages of the list-of-noises branch (source lines
395–400). -/
def crossnobisFoldAverages (d2 : Dataset) (cvKey descKey : String)
    (cv_folds : List ℕ) : Except PyErr (List Mat) :=
  cv_folds.mapM fun fold => do
    let data ← d2.subset_obs cvKey [fold]
    let mp ← average_dataset_by data descKey
    pure mp.1

/-- The per-fold covariances `np.linalg.inv(noise[i_fold])` of the
list-of-noises branch (source line 400). -/
def crossnobisVariances (ops : NumOps) (noise1 : Noise) (nFolds : ℕ) :
    Except PyErr (List Mat) :=
  (List.range nFolds).mapM fun i => do
    let ni ← noiseIdx noise1 i
    invNoise ops ni

/-- The branch of `calc_rdm_crossnobis` on the validated noise: absent or a
single matrix runs the leave-one-fold-out loop; anything else is treated as
the per-fold collection of source lines 394–408, pairing all distinct folds
with combined precision `inv(inv(noise_i) + inv(noise_j))`. -/
def crossnobisNoiseBranch (ops : NumOps) (d2 : Dataset)
    (cvKey descKey : String) (cv_folds : List ℕ) :
    Noise → Except PyErr Mat
  | .nothing => crossnobisFolds d2 cvKey descKey cv_folds none
  | .matrix nm => crossnobisFolds d2 cvKey descKey cv_folds (some nm)
  | noise1 => do
      let ms ← crossnobisFoldAverages d2 cvKey descKey cv_folds
      let variances ← crossnobisVariances ops noise1 cv_folds.length
      pure ((pairsUpper cv_folds.length).map fun p =>
        calc_rdm_crossnobis_single (ms.getD p.1 []) (ms.getD p.2 [])
          (ops.invQ (matAdd (variances.getD p.1 []) (variances.getD p.2 []))))

/-- `calc_rdm_crossnobis(dataset, descriptor, noise, cv_descriptor)`.  The
returned dataset is the caller's dataset after the call: sorted by the
pattern descriptor, with the derived `'cv_desc'` fold labels injected when no
`cv_descriptor` was supplied. -/
def calc_rdm_crossnobis (ops : NumOps) (d0 : Dataset)
    (descriptor : Option String) (noise : Noise)
    (cv_descriptor : Option String) : Except PyErr (RDMs × Dataset) := do
  let noise1 ← check_noise d0.n_channel noise
  match descriptor with
  | none => .error (.valueError
      "descriptor must be a string! Crossvalidationrequires multiple measurements to be grouped")
  | some descKey => do
    let dk ← resolveCv d0 descKey cv_descriptor
    let d2 ← dk.1.sort_by descKey
    let cvl ← lookupCvl d2 dk.2
    let cv_folds := npUnique cvl
    let rdms ← crossnobisNoiseBranch ops d2 dk.2 descKey cv_folds noise1
    let rdm := meanAxis0 rdms
    let _ ← average_dataset_by d2 descKey
    pure (mkRDMsVec rdm "crossnobis", d2)

/-- One iteration of the Poisson-CV fold loop (source lines 485–501):
training side averages all other folds, test side the fold itself; the prior
shrinkage is applied to both; the linear term comes from the training
average and the log term from the test average. -/
def poisson_cv_fold (ops : NumOps) (d2 : Dataset) (cvKey descKey : String)
    (cv_folds : List ℕ) (prior_lambda prior_weight : ℚ) (fold : ℕ) :
    Except PyErr Vec := do
  let data_test ← d2.subset_obs cvKey [fold]
  let data_train ← d2.subset_obs cvKey (cv_folds.filter fun x => x ≠ fold)
  let mtr ← average_dataset_by data_train descKey
  let mte ← average_dataset_by data_test descKey
  let m_train := priorShift mtr.1 prior_lambda prior_weight
  let m_test := priorShift mte.1 prior_lambda prior_weight
  let diff := calc_pairwise_differences m_train
  let diff_log :=
    calc_pairwise_differences (m_test.map fun r => r.map ops.logQ)
  pure (List.zipWith (fun a b => dotQ a b / (shape1 m_train : ℚ)) diff diff_log)

/-- `calc_rdm_poisson_cv(dataset, descriptor, prior_lambda, prior_weight,
cv_descriptor)`.  The source's fold loop rebinds `rdm` on every iteration and
only the binding from the final iteration survives the loop; with no folds
`rdm` is unbound (a `NameError`).  Like crossnobis, the dataset is sorted in
place and `'cv_desc'` is injected when no `cv_descriptor` was supplied. -/
def calc_rdm_poisson_cv (ops : NumOps) (d0 : Dataset)
    (descriptor : Option String) (prior_lambda prior_weight : ℚ)
    (cv_descriptor : Option String) : Except PyErr (RDMs × Dataset) := do
  match descriptor with
  | none => .error (.valueError
      "descriptor must be a string! Crossvalidationrequires multiple measurements to be grouped")
  | some descKey => do
    let dk ← resolveCv d0 descKey cv_descriptor
    let d2 ← dk.1.sort_by descKey
    let cvl ← lookupCvl d2 dk.2
    let cv_folds := npUnique cvl
    let rdmLast ← cv_folds.foldlM
      (fun (_ : Option Vec) fold =>
        (poisson_cv_fold ops d2 dk.2 descKey cv_folds prior_lambda
          prior_weight fold).map some)
      none
    match rdmLast with
    | none => .error .nameError
    | some rdm => do
        let _ ← average_dataset_by d2 descKey
        pure (mkRDMsVec rdm "poisson_cv", d2)

/-- A dataset argument to `calc_rdm`: a single dataset or a (possibly nested)
collection of them (`isinstance(dataset, Iterable)` fan-out). -/
inductive DataInput
  | single (d : Dataset)
  | coll (l : List DataInput)

mutual

/-- `calc_rdm(dataset, method, descriptor, noise, cv_descriptor,
prior_lambda, prior_weight)`: dispatch on the method name, or fan out over a
collection and concatenate. -/
def calc_rdm (ops : NumOps) (inp : DataInput) (method : String)
    (descriptor : Option String) (noise : Noise) (cvd : Option String)
    (pl pw : ℚ) : Except PyErr RDMs :=
  match inp with
  | .coll l => do
      let rdms ← calcRdmColl ops l method descriptor noise cvd pl pw 0
      pure (concatRDMs rdms)
  | .single d =>
      if method = "euclidean" then (calc_rdm_euclid d descriptor).map Prod.fst
      else if method = "correlation" then
        (calc_rdm_correlation ops d descriptor).map Prod.fst
      else if method = "correlation_cv" then
        (calc_rdm_correlation_cv ops d descriptor).map Prod.fst
      else if method = "mahalanobis" then
        (calc_rdm_mahalanobis d descriptor noise).map Prod.fst
      else if method = "crossnobis" then
        (calc_rdm_crossnobis ops d descriptor noise cvd).map Prod.fst
      else if method = "crosseuclid" then
        (calc_rdm_crossnobis ops d descriptor .nothing cvd).map Prod.fst
      else if method = "poisson" then
        (calc_rdm_poisson ops d descriptor pl pw).map Prod.fst
      else if method = "poisson_cv" then
        (calc_rdm_poisson_cv ops d descriptor pl pw cvd).map Prod.fst
      else .error .notImplementedError

/-- `calc_rdm`'s loop over a collection: element `i` receives the whole when
the noise is absent or one matrix, and `noise[i]` when it is a collection. -/
def calcRdmColl (ops : NumOps) (l : List DataInput) (method : String)
    (descriptor : Option String) (noise : Noise) (cvd : Option String)
    (pl pw : ℚ) (i : ℕ) : Except PyErr (List RDMs) :=
  match l with
  | [] => pure []
  | x :: xs => do
      let r ←
        match noise with
        | .nothing => calc_rdm ops x method descriptor .nothing cvd pl pw
        | .matrix nm => calc_rdm ops x method descriptor (.matrix nm) cvd pl pw
        | _ => do
            let ni ← noiseIdx noise i
            calc_rdm ops x method descriptor ni cvd pl pw
      let rs ← calcRdmColl ops xs method descriptor noise cvd pl pw (i + 1)
      pure (r :: rs)

end

/-- Modelled from the spec: the temporal dataset collaborator with
"time-binning/splitting and time-descriptor accessors" (§6); `measurements3`
is observations × channels × time points. -/
structure TemporalDataset where
  measurements3 : List (List (List ℚ))
  obs_descriptors : List (String × List ℕ)
  time_descriptors : List (String × List ℚ)
deriving DecidableEq, Repr

/-- `dataset.time_descriptors[key]`. -/
def TemporalDataset.lookupTime (td : TemporalDataset) (k : String) :
    Option (List ℚ) :=
  (td.time_descriptors.find? fun p => p.1 = k).map Prod.snd

/-- Modelled from the spec: `bin_time` — average the time axis over each
bin's time points ("bins[i] containing the vector of time-points for the i-th
bin"); a bin is represented by its mean time value. -/
def TemporalDataset.bin_time (td : TemporalDataset) (k : String)
    (bins : List (List ℕ)) : Except PyErr TemporalDataset :=
  match td.lookupTime k with
  | none => .error .keyError
  | some _ =>
    .ok { measurements3 := td.measurements3.map fun ob => ob.map fun chan =>
            bins.map fun b => rowMean (b.map fun t => chan.getD t 0),
          obs_descriptors := td.obs_descriptors,
          time_descriptors := td.time_descriptors.map fun p =>
            (p.1, bins.map fun b => rowMean (b.map fun t => p.2.getD t 0)) }

/-- Modelled from the spec: `split_time` — one single-time-point temporal
dataset per time sample, in time order. -/
def TemporalDataset.split_time (td : TemporalDataset) (k : String) :
    Except PyErr (List TemporalDataset) :=
  match td.lookupTime k with
  | none => .error .keyError
  | some times =>
    .ok ((List.range times.length).map fun t =>
      { measurements3 := td.measurements3.map fun ob => ob.map fun chan =>
          [chan.getD t 0],
        obs_descriptors := td.obs_descriptors,
        time_descriptors := td.time_descriptors.map fun p =>
          (p.1, [p.2.getD t 0]) })

/-- Modelled from the spec: `convert_to_dataset` on a single-time-point
temporal dataset — drop the time axis. -/
def TemporalDataset.convert_to_dataset (td : TemporalDataset) (_k : String) :
    Dataset :=
  { measurements := td.measurements3.map fun ob => ob.map fun chan =>
      chan.getD 0 0,
    obs_descriptors := td.obs_descriptors }

/-- `rdm.rdm_descriptors[time_descriptor] = time`. -/
def setRdmTimeDesc (r : RDMs) (k : String) (time : List ℚ) : RDMs :=
  { r with rdm_descriptors :=
      (r.rdm_descriptors.filter fun p => p.1 ≠ k) ++ [(k, time)] }

/-- A dataset argument to `calc_rdm_movie`. -/
inductive TDataInput
  | single (td : TemporalDataset)
  | coll (l : List TDataInput)

mutual

/-- `calc_rdm_movie(dataset, method, descriptor, noise, cv_descriptor,
prior_lambda, prior_weight, time_descriptor, bins)`: split a temporal dataset
along time (optionally binning first), compute one RDM per time point via
`calc_rdm`, concatenate and stamp the time descriptor. -/
def calc_rdm_movie (ops : NumOps) (inp : TDataInput) (method : String)
    (descriptor : Option String) (noise : Noise) (cvd : Option String)
    (pl pw : ℚ) (time_descriptor : String) (bins : Option (List (List ℕ))) :
    Except PyErr RDMs :=
  match inp with
  | .coll l => do
      -- Source lines 120–137: the recursion over a collection forwards only
      -- method, descriptor and noise; cv_descriptor, the prior parameters,
      -- time_descriptor and bins revert to their defaults.
      let rdms ← calcRdmMovieColl ops l method descriptor noise 0
      pure (concatRDMs rdms)
  | .single td => do
      let (splited, time) ←
        match bins with
        | some bs => do
            let binned ← td.bin_time time_descriptor bs
            let s ← binned.split_time time_descriptor
            let t ←
              match binned.lookupTime time_descriptor with
              | none => Except.error PyErr.keyError
              | some t => pure t
            pure (s, t)
        | none => do
            let s ← td.split_time time_descriptor
            let t ←
              match td.lookupTime time_descriptor with
              | none => Except.error PyErr.keyError
              | some t => pure t
            pure (s, t)
      let rdms ← splited.mapM fun dat =>
        calc_rdm ops (.single (dat.convert_to_dataset time_descriptor))
          method descriptor noise cvd pl pw
      pure (setRdmTimeDesc (concatRDMs rdms) time_descriptor time)

/-- `calc_rdm_movie`'s loop over a collection (with the parameter-dropping
recursion of the source). -/
def calcRdmMovieColl (ops : NumOps) (l : List TDataInput) (method : String)
    (descriptor : Option String) (noise : Noise) (i : ℕ) :
    Except PyErr (List RDMs) :=
  match l with
  | [] => pure []
  | x :: xs => do
      let r ←
        match noise with
        | .nothing =>
            calc_rdm_movie ops x method descriptor .nothing none 1 (1/10) "time" none
        | .matrix nm =>
            calc_rdm_movie ops x method descriptor (.matrix nm) none 1 (1/10) "time" none
        | _ => do
            let ni ← noiseIdx noise i
            calc_rdm_movie ops x method descriptor ni none 1 (1/10) "time" none
      let rs ← calcRdmMovieColl ops xs method descriptor noise (i + 1)
      pure (r :: rs)

end

/-- A concrete instantiation of the external numerical routines, used to
evaluate the engine on concrete inputs (no verified property depends on the
routines' values). -/
def idOps : NumOps := ⟨id, id, id⟩

/-- The noise an element of a collection receives from the fan-out loops of
`calc_rdm` / `calc_rdm_movie`: the whole specification when absent or a
single matrix (broadcast), and `noise[i]` when it is a collection. -/
def noiseFor : Noise → ℕ → Except PyErr Noise
  | .nothing, _ => .ok .nothing
  | .matrix nm, _ => .ok (.matrix nm)
  | n, i => noiseIdx n i

/-- A concrete two-condition, two-repeat, two-channel dataset used to
evaluate the engine (its `cv` labels make both folds contain both
conditions). -/
def dW : Dataset :=
  ⟨[[1,2],[3,5],[5,6],[7,9]], [("cond", [0,1,0,1]), ("cv", [0,1,1,0])]⟩

/-- `dW` as the cross-validated estimators leave it: sorted by `cond`. -/
def dWs : Dataset :=
  ⟨[[1,2],[5,6],[3,5],[7,9]], [("cond", [0,0,1,1]), ("cv", [0,1,1,0])]⟩

/-!  Infrastructure lemmas about the `Except` monad and list evaluation. -/

lemma except_bind_ok {α β : Type} {e : Except PyErr α} {f : α → Except PyErr β}
    {b : β} (h : e >>= f = .ok b) : ∃ a, e = .ok a ∧ f a = .ok b := by
  cases e with
  | ok a => exact ⟨a, rfl, h⟩
  | error ex => simp [Bind.bind, Except.bind] at h

lemma except_map_ok {α β : Type} {e : Except PyErr α} {f : α → β} {b : β}
    (h : e.map f = .ok b) : ∃ a, e = .ok a ∧ f a = b := by
  cases e with
  | ok a =>
    refine ⟨a, rfl, ?_⟩
    simpa [Except.map] using h
  | error ex => simp [Except.map] at h

lemma mapM_ok_length {α β : Type} {g : α → Except PyErr β} :
    ∀ {l : List α} {out : List β}, l.mapM g = .ok out → out.length = l.length := by
  intro l
  induction l with
  | nil =>
    intro out h
    simp only [List.mapM, List.mapM.loop, List.reverse_nil, pure, Except.pure,
      Except.ok.injEq] at h
    simp [← h]
  | cons x xs ih =>
    intro out h
    rw [List.mapM_cons] at h
    rcases except_bind_ok h with ⟨y, _, h2⟩
    rcases except_bind_ok h2 with ⟨ys, hys, h3⟩
    simp only [pure, Except.pure, Except.ok.injEq] at h3
    subst h3
    simp [ih hys]

lemma mapM_ok_get {α β : Type} {g : α → Except PyErr β} :
    ∀ {l : List α} {out : List β}, l.mapM g = .ok out →
      ∀ i x, l.get? i = some x → ∃ y, out.get? i = some y ∧ g x = .ok y := by
  intro l
  induction l with
  | nil => intro out _ i x hx; simp at hx
  | cons a as ih =>
    intro out h i x hx
    rw [List.mapM_cons] at h
    rcases except_bind_ok h with ⟨y, hy, h2⟩
    rcases except_bind_ok h2 with ⟨ys, hys, h3⟩
    simp only [pure, Except.pure, Except.ok.injEq] at h3
    subst h3
    cases i with
    | zero =>
      simp only [List.get?] at hx
      cases hx
      exact ⟨y, rfl, hy⟩
    | succ n =>
      simp only [List.get?] at hx ⊢
      exact ih hys n x hx

lemma mem_pairsUpper {n : ℕ} {p : ℕ × ℕ} :
    p ∈ pairsUpper n ↔ p.1 < p.2 ∧ p.2 < n := by
  cases p with
  | mk i j =>
    simp only [pairsUpper, List.mem_flatten, List.mem_map, List.mem_range]
    constructor
    · rintro ⟨L, ⟨i', hi', rfl⟩, hmem⟩
      rcases List.mem_map.mp hmem with ⟨t, ht, hpt⟩
      rw [List.mem_range] at ht
      rcases Prod.mk.injEq .. ▸ hpt with ⟨h1, h2⟩
      constructor <;> omega
    · rintro ⟨hij, hjn⟩
      refine ⟨(List.range (n - i - 1)).map fun t => (i, i + 1 + t),
        ⟨i, by omega, rfl⟩, List.mem_map.mpr ⟨j - i - 1, ?_, ?_⟩⟩
      · rw [List.mem_range]; omega
      · rw [Prod.mk.injEq]
        exact ⟨rfl, by omega⟩

lemma dotQ_vsub_self (x y : Vec) :
    dotQ (vsub x y) (vsub x y) =
      (List.zipWith (fun a b => (a - b) ^ 2) x y).sum := by
  unfold dotQ vsub
  induction x generalizing y with
  | nil => simp
  | cons a xs ih =>
    cases y with
    | nil => simp
    | cons b ys =>
      simp only [List.zipWith_cons_cons, List.sum_cons, ih]
      ring_nf

/-- C9: the pairwise difference engine returns `C(C-1)/2` rows; row `k` is
row `i` minus row `j` of the input for the `k`-th canonical pair `(i, j)`
(the pairs enumerating exactly `i < j < C` in the canonical order); the
output is empty for `C = 0` and `C = 1`, and for `C = 3` with rows
`[a, b, c]` the output order is `[a-b, a-c, b-c]`. -/
theorem C9_pairwise_difference_engine (M : Mat) :
    ((calc_pairwise_differences M).length = M.length * (M.length - 1) / 2)
  ∧ (∀ k, (calc_pairwise_differences M).get? k =
      ((pairsUpper M.length).get? k).map fun p => vsub (row M p.1) (row M p.2))
  ∧ (∀ p : ℕ × ℕ, p ∈ pairsUpper M.length ↔ p.1 < p.2 ∧ p.2 < M.length)
  ∧ calc_pairwise_differences ([] : Mat) = []
  ∧ (∀ a : Vec, calc_pairwise_differences [a] = [])
  ∧ (∀ a b c : Vec, calc_pairwise_differences [a, b, c] =
      [vsub a b, vsub a c, vsub b c]) := by
  refine ⟨length_calc_pairwise_differences M, ?_, fun p => mem_pairsUpper, rfl,
    fun a => rfl, fun a b c => rfl⟩
  intro k
  simp [calc_pairwise_differences, List.get?_map]

/-- C5: the Euclidean estimator returns, for the `k`-th canonical pair
`(i, j)` of averaged patterns, the mean over channels of the squared
per-channel difference; on the canonical 4-condition 2-channel fixture it
returns `[0.5, 0.5, 1.0, 1.0, 0.5, 0.5]`. -/
theorem C5_euclidean_estimator :
    (∀ (d : Dataset) (descriptor : Option String) (r : RDMs) (d' : Dataset)
       (M : Mat) (labels : List ℕ) (key : String) (k i j : ℕ),
       parse_input d descriptor = .ok (M, labels, key) →
       calc_rdm_euclid d descriptor = .ok (r, d') →
       (pairsUpper M.length).get? k = some (i, j) →
       (r.dissimilarities.headD []).get? k =
         some ((List.zipWith (fun a b => (a - b) ^ 2) (row M i) (row M j)).sum
                / (shape1 M : ℚ)))
  ∧ calc_rdm_euclid ⟨[[0,0],[1,0],[0,1],[1,1]], []⟩ none =
      .ok (⟨[[1/2, 1/2, 1, 1, 1/2, 1/2]], "euclidean", []⟩,
           ⟨[[0,0],[1,0],[0,1],[1,1]], []⟩) := by
  constructor
  · intro d descriptor r d' M labels key k i j hp he hk
    unfold calc_rdm_euclid at he
    rw [hp] at he
    simp only [Bind.bind, Except.bind, pure, Except.pure, Except.ok.injEq,
      Prod.mk.injEq] at he
    obtain ⟨hr, _⟩ := he
    rw [← hr]
    have hhead : (mkRDMsVec
        ((calc_pairwise_differences M).map fun r' => dotQ r' r' / (shape1 M : ℚ))
        "euclidean").dissimilarities.headD [] =
        (calc_pairwise_differences M).map fun r' => dotQ r' r' / (shape1 M : ℚ) := rfl
    rw [hhead, List.get?_map, calc_pairwise_differences, List.get?_map, hk]
    simp [dotQ_vsub_self]
  · norm_num [calc_rdm_euclid, parse_input, calc_pairwise_differences,
      pairsUpper, row, vsub, dotQ, shape1, mkRDMsVec, List.range_succ,
      Except.bind]

/-- Witness for C5: the theorem applied to the canonical fixture at the first
canonical pair `(0, 1)`. -/
theorem C5_euclidean_estimator_witness :
    ((⟨[[1/2, 1/2, 1, 1, 1/2, 1/2]], "euclidean", []⟩ : RDMs).dissimilarities.headD
        []).get? 0 =
      some ((List.zipWith (fun a b => (a - b) ^ 2)
          (row [[0,0],[1,0],[0,1],[1,1]] 0) (row [[0,0],[1,0],[0,1],[1,1]] 1)).sum
        / (shape1 [[0,0],[1,0],[0,1],[1,1]] : ℚ)) :=
  C5_euclidean_estimator.1 ⟨[[0,0],[1,0],[0,1],[1,1]], []⟩ none
    ⟨[[1/2, 1/2, 1, 1, 1/2, 1/2]], "euclidean", []⟩
    ⟨[[0,0],[1,0],[0,1],[1,1]], []⟩
    [[0,0],[1,0],[0,1],[1,1]] [0,1,2,3] "pattern" 0 0 1
    (by rfl) C5_euclidean_estimator.2 (by rfl)

lemma assignFolds_length (v : ℕ) :
    ∀ (ds cv : List ℕ) (ctr : ℕ),
      (assignFolds v ds cv ctr).length = min ds.length cv.length := by
  intro ds
  induction ds with
  | nil => intro cv ctr; simp [assignFolds]
  | cons l ds' ih =>
    intro cv ctr
    cases cv with
    | nil => simp [assignFolds]
    | cons c cv' =>
      by_cases h : l = v <;> simp [assignFolds, h, ih] <;> omega

lemma assignFolds_get? (v : ℕ) :
    ∀ (ds cv : List ℕ) (ctr p : ℕ), cv.length = ds.length → p < ds.length →
      (assignFolds v ds cv ctr).get? p =
        some (if ds.getD p 0 = v then ctr + (ds.take p).count v
              else cv.getD p 0) := by
  intro ds
  induction ds with
  | nil => intro cv ctr p _ hp; simp at hp
  | cons l ds' ih =>
    intro cv ctr p hlen hp
    cases cv with
    | nil => simp at hlen
    | cons c cv' =>
      have hlen' : cv'.length = ds'.length := by
        simpa using hlen
      cases p with
      | zero =>
        by_cases h : l = v <;> simp [assignFolds, h]
      | succ p' =>
        have hp' : p' < ds'.length := by
          simpa using hp
        by_cases h : l = v
        · subst h
          rw [show assignFolds l (l :: ds') (c :: cv') ctr =
              ctr :: assignFolds l ds' cv' (ctr + 1) from by simp [assignFolds]]
          simp only [List.get?]
          rw [ih cv' (ctr + 1) p' hlen' hp']
          rw [List.getD_cons_succ, List.take_succ_cons, List.count_cons]
          by_cases h2 : ds'.getD p' 0 = l
          · rw [if_pos h2, if_pos h2]
            have hone : (if (l == l) = true then 1 else 0) = 1 := by simp
            rw [hone]
            simp only [Option.some.injEq]
            omega
          · rw [if_neg h2, if_neg h2, List.getD_cons_succ]
        · rw [show assignFolds v (l :: ds') (c :: cv') ctr =
              c :: assignFolds v ds' cv' ctr from by simp [assignFolds, h]]
          simp only [List.get?]
          rw [ih cv' ctr p' hlen' hp']
          rw [List.getD_cons_succ, List.take_succ_cons, List.count_cons]
          by_cases h2 : ds'.getD p' 0 = v
          · rw [if_pos h2, if_pos h2]
            have hb : (l == v) = false := beq_eq_false_iff_ne.mpr h
            rw [hb]
            simp
          · rw [if_neg h2, if_neg h2, List.getD_cons_succ]

lemma foldAssign_length :
    ∀ (vs ds cv₀ : List ℕ), cv₀.length = ds.length →
      (vs.foldl (fun cv v => assignFolds v ds cv 0) cv₀).length = ds.length := by
  intro vs
  induction vs with
  | nil => intro ds cv₀ h; simpa using h
  | cons v vs' ih =>
    intro ds cv₀ h
    simp only [List.foldl_cons]
    exact ih ds _ (by rw [assignFolds_length]; omega)

lemma foldAssign_get? :
    ∀ (vs ds cv₀ : List ℕ) (p : ℕ), cv₀.length = ds.length → p < ds.length →
      (vs.foldl (fun cv v => assignFolds v ds cv 0) cv₀).get? p =
        (if ds.getD p 0 ∈ vs then some ((ds.take p).count (ds.getD p 0))
         else cv₀.get? p) := by
  intro vs
  induction vs with
  | nil => intro ds cv₀ p _ _; simp
  | cons v vs' ih =>
    intro ds cv₀ p hlen hp
    simp only [List.foldl_cons]
    have hlen1 : (assignFolds v ds cv₀ 0).length = ds.length := by
      rw [assignFolds_length]; omega
    rw [ih ds _ p hlen1 hp]
    by_cases hmem : ds.getD p 0 ∈ vs'
    · rw [if_pos hmem, if_pos (List.mem_cons.mpr (Or.inr hmem))]
    · rw [if_neg hmem]
      rw [assignFolds_get? v ds cv₀ 0 p hlen hp]
      by_cases heq : ds.getD p 0 = v
      · rw [if_pos heq, if_pos (List.mem_cons.mpr (Or.inl heq)), heq,
          Nat.zero_add]
      · have hnm : ¬(ds.getD p 0 ∈ v :: vs') := by
          rw [List.mem_cons]
          push_neg
          exact ⟨heq, hmem⟩
        rw [if_neg heq, if_neg hnm]
        have hpc : p < cv₀.length := by omega
        rw [List.getD_eq_getElem _ _ hpc, List.get?_eq_getElem?,
          List.getElem?_eq_getElem hpc]

lemma take_count_lt {desc : List ℕ} {p : ℕ} (hp : p < desc.length) :
    (desc.take p).count (desc.getD p 0) < desc.count (desc.getD p 0) := by
  set a := desc.getD p 0 with ha
  have hd : desc.drop p = a :: desc.drop (p + 1) := by
    rw [ha, List.getD_eq_getElem _ _ hp]
    exact List.drop_eq_getElem_cons hp
  have h2 : desc.count a = (desc.take p).count a + (desc.drop p).count a := by
    conv_lhs => rw [← List.take_append_drop p desc, List.count_append]
  have h1 : 0 < (desc.drop p).count a := by
    rw [hd, List.count_cons_self]
    omega
  omega

/-- C6: the default fold partitioner assigns fold index `0..R-1` to the
repeats of each condition in occurrence order (position `p` receives the
number of earlier occurrences of its own label) when every distinct label
occurs exactly `R` times, and raises a balance assertion otherwise;
concretely `[0,0,0,1,1,1] ↦ [0,1,2,0,1,2]` and `[0,0,1]` raises. -/
theorem C6_fold_partitioner :
    (∀ (d : Dataset) (key : String) (desc : List ℕ) (R : ℕ),
       d.lookupDesc key = some desc → desc ≠ [] →
       (∀ v ∈ desc, desc.count v = R) →
       ∃ cv, gen_default_cv_descriptor d key = .ok cv ∧
         cv.length = desc.length ∧
         (∀ p, p < desc.length →
           cv.get? p = some ((desc.take p).count (desc.getD p 0)) ∧
           (desc.take p).count (desc.getD p 0) < R))
  ∧ (∀ (d : Dataset) (key : String) (desc : List ℕ),
       d.lookupDesc key = some desc →
       (∃ v ∈ desc, ∃ w ∈ desc, desc.count v ≠ desc.count w) →
       ∃ msg, gen_default_cv_descriptor d key = .error (.assertionError msg))
  ∧ gen_default_cv_descriptor
      ⟨[[1],[2],[3],[4],[5],[6]], [("cond", [0,0,0,1,1,1])]⟩ "cond" =
      .ok [0, 1, 2, 0, 1, 2]
  ∧ (∃ msg, gen_default_cv_descriptor
      ⟨[[1],[2],[3]], [("cond", [0,0,1])]⟩ "cond"
      = .error (.assertionError msg)) := by
  refine ⟨?_, ?_, ?_, ?_⟩
  · intro d key desc R hkey hne hcount
    simp only [gen_default_cv_descriptor, hkey]
    have hmem0 : desc.headD 0 ∈ desc := by
      cases desc with
      | nil => exact absurd rfl hne
      | cons a l => simp
    have hval0 : desc.headD 0 ∈ npUnique desc := mem_npUnique.mpr hmem0
    cases hv : npUnique desc with
    | nil => rw [hv] at hval0; simp at hval0
    | cons v0 vt =>
      simp only [List.map_cons]
      have hv0d : v0 ∈ desc := mem_npUnique.mp (by rw [hv]; exact List.mem_cons_self v0 vt)
      have hcond : ((desc.count v0 :: vt.map fun v => desc.count v).all
          fun c => c = desc.count v0) = true := by
        rw [List.all_eq_true]
        intro c hc
        rcases List.mem_cons.mp hc with hc | hc
        · simp [hc]
        · rcases List.mem_map.mp hc with ⟨w, hw, rfl⟩
          have hw' : w ∈ desc := mem_npUnique.mp (by
            rw [hv]; exact List.mem_cons.mpr (Or.inr hw))
          simp [hcount w hw', hcount v0 hv0d]
      rw [if_pos hcond]
      refine ⟨_, rfl, ?_, ?_⟩
      · exact foldAssign_length _ desc _ (by simp)
      · intro p hp
        have hmm : desc.getD p 0 ∈ desc := by
          rw [List.getD_eq_getElem _ _ hp]
          exact List.getElem_mem hp
        constructor
        · rw [foldAssign_get? _ desc _ p (by simp) hp,
            if_pos (by rw [← hv]; exact mem_npUnique.mpr hmm)]
        · have := take_count_lt hp
          rwa [hcount _ hmm] at this
  · intro d key desc hkey hex
    rcases hex with ⟨v, hv, w, hw, hne⟩
    simp only [gen_default_cv_descriptor, hkey]
    have hvu : v ∈ npUnique desc := mem_npUnique.mpr hv
    cases hu : npUnique desc with
    | nil => rw [hu] at hvu; simp at hvu
    | cons v0 vt =>
      simp only [List.map_cons]
      have hcmem : ∀ x, x ∈ desc →
          desc.count x ∈ desc.count v0 :: vt.map fun y => desc.count y := by
        intro x hx
        have hxu : x ∈ v0 :: vt := hu ▸ mem_npUnique.mpr hx
        rcases List.mem_cons.mp hxu with h | h
        · rw [h]; exact List.mem_cons_self _ _
        · exact List.mem_cons.mpr (Or.inr (List.mem_map.mpr ⟨x, h, rfl⟩))
      have hnall : ¬(((desc.count v0 :: vt.map fun y => desc.count y).all
          fun c => c = desc.count v0) = true) := by
        intro hall
        rw [List.all_eq_true] at hall
        have h1 : desc.count v = desc.count v0 := by
          have := hall _ (hcmem v hv)
          simpa using this
        have h2 : desc.count w = desc.count v0 := by
          have := hall _ (hcmem w hw)
          simpa using this
        exact hne (h1.trans h2.symm)
      rw [if_neg hnall]
      exact ⟨_, rfl⟩
  · norm_num [gen_default_cv_descriptor, Dataset.lookupDesc, npUnique,
      insertUnique, assignFolds, List.find?, List.count]
  · refine ⟨"cv_descriptor generation failed: different number of observations per pattern", ?_⟩
    norm_num [gen_default_cv_descriptor, Dataset.lookupDesc, npUnique,
      insertUnique, List.find?, List.count]

/-!  Value preservation of the noise validator: a successful validation
returns the input value unchanged. -/

mutual

theorem check_noise_ok_eq (nc : ℕ) (n n' : Noise)
    (h : check_noise nc n = .ok n') : n' = n := by
  cases n with
  | nothing =>
    simp only [check_noise, Except.ok.injEq] at h
    exact h.symm
  | matrix m =>
    simp only [check_noise] at h
    split at h
    · simp only [Except.ok.injEq] at h
      exact h.symm
    · simp at h
  | listN l =>
    simp only [check_noise] at h
    rcases except_map_ok h with ⟨l', hl, hn⟩
    rw [← hn, checkList_ok_eq nc l l' hl]
  | dictN l =>
    simp only [check_noise] at h
    split at h
    · simp at h
    · rcases except_map_ok h with ⟨l', hl, hn⟩
      rw [← hn, checkDictVals_ok_eq nc l l' hl]
termination_by sizeOf n

theorem checkList_ok_eq (nc : ℕ) (l l' : List Noise)
    (h : checkList nc l = .ok l') : l' = l := by
  cases l with
  | nil =>
    simp only [checkList, Except.ok.injEq] at h
    exact h.symm
  | cons x xs =>
    simp only [checkList] at h
    rcases except_bind_ok h with ⟨y, hy, h2⟩
    rcases except_bind_ok h2 with ⟨ys, hys, h3⟩
    simp only [pure, Except.pure, Except.ok.injEq] at h3
    rw [← h3, check_noise_ok_eq nc x y hy, checkList_ok_eq nc xs ys hys]
termination_by sizeOf l

theorem checkDictVals_ok_eq (nc : ℕ) (l l' : List (ℕ × Noise))
    (h : checkDictVals nc l = .ok l') : l' = l := by
  cases l with
  | nil =>
    simp only [checkDictVals, Except.ok.injEq] at h
    exact h.symm
  | cons kv xs =>
    cases kv with
    | mk k v =>
      simp only [checkDictVals] at h
      rcases except_bind_ok h with ⟨y, hy, h2⟩
      rcases except_bind_ok h2 with ⟨ys, hys, h3⟩
      simp only [pure, Except.pure, Except.ok.injEq] at h3
      rw [← h3, check_noise_ok_eq nc v y hy, checkDictVals_ok_eq nc xs ys hys]
termination_by sizeOf l

end

lemma checkDictOrder_cons_none {nc : ℕ} {l : List (ℕ × Noise)} {i : ℕ}
    {is : List ℕ} (h : lookupN l i = none) :
    checkDictOrder nc l (i :: is) = .error .keyError := by
  simp only [checkDictOrder]
  split
  · rfl
  · next v heq => rw [h] at heq; cases heq

/-- C7: the noise validator as the code runs it — an absent specification
propagates unchanged, a matrix of the right shape passes, a wrong shape
raises the assertion, a sequence of conforming matrices passes unchanged;
but a keyed mapping is consumed by the sequence branch (a Python `dict` is
`Iterable`), which looks up integer positions `0..len-1`, so a conforming
mapping whose key is not an integer position raises `KeyError` and is never
validated — the source's own `isinstance(noise, dict)` branch is
unreachable. -/
theorem C7_noise_validator :
    check_noise 2 .nothing = .ok .nothing
  ∧ check_noise 2 (.matrix [[1,0],[0,1]]) = .ok (.matrix [[1,0],[0,1]])
  ∧ check_noise 2 (.matrix [[1,0]]) = .error (.assertionError "")
  ∧ check_noise 2 (.listN [.matrix [[1,0],[0,1]], .matrix [[2,0],[0,2]]])
      = .ok (.listN [.matrix [[1,0],[0,1]], .matrix [[2,0],[0,2]]])
  ∧ check_noise 2 (.dictN [(5, .matrix [[1,0],[0,1]])]) = .error .keyError := by
  refine ⟨?_, ?_, ?_, ?_, ?_⟩
  · simp [check_noise]
  · simp [check_noise, matShapeOk]
  · simp [check_noise, matShapeOk]
  · simp [check_noise, checkList, matShapeOk, pure, Except.pure, Bind.bind,
      Except.bind, Except.map]
  · have h0 : lookupN [(5, Noise.matrix [[1,0],[0,1]])] 0 = none := rfl
    simp [check_noise, List.range_succ, checkDictOrder_cons_none h0]

/-- C2 (amended): crossnobis and Poisson-CV raise the explicit descriptor
`ValueError` immediately when `descriptor` is `None` (crossnobis after its
noise validation); correlation-CV performs no such check — with `None` it
proceeds, returning an RDM on an empty dataset, or failing later in the
dataset collaborator's `'pattern'` descriptor lookup on a nonempty one. -/
theorem C2_missing_descriptor_errors :
    (∀ (ops : NumOps) (d : Dataset) (noise noise' : Noise) (cvd : Option String),
       check_noise d.n_channel noise = .ok noise' →
       calc_rdm_crossnobis ops d none noise cvd = .error (.valueError
         "descriptor must be a string! Crossvalidationrequires multiple measurements to be grouped"))
  ∧ (∀ (ops : NumOps) (d : Dataset) (pl pw : ℚ) (cvd : Option String),
       calc_rdm_poisson_cv ops d none pl pw cvd = .error (.valueError
         "descriptor must be a string! Crossvalidationrequires multiple measurements to be grouped"))
  ∧ (∀ (ops : NumOps) (d : Dataset),
       d.measurements ≠ [] → d.lookupDesc "pattern" = none →
       calc_rdm_correlation_cv ops d none = .error .keyError) := by
  refine ⟨?_, ?_, ?_⟩
  · intro ops d noise noise' cvd hchk
    unfold calc_rdm_crossnobis
    rw [hchk]
    simp [Bind.bind, Except.bind]
  · intro ops d pl pw cvd
    simp [calc_rdm_poisson_cv]
  · intro ops d hne hlp
    unfold calc_rdm_correlation_cv parse_input
    simp only [Bind.bind, Except.bind]
    cases hm : d.measurements with
    | nil => exact absurd hm hne
    | cons m0 ms =>
      simp only [List.length_cons, List.range_succ_eq_map, List.mapM_cons,
        Dataset.subset_obs, hlp]
      simp [Bind.bind, Except.bind]

/-- Counterexample for C2: `calc_rdm_correlation_cv` called with no grouping
descriptor raises no error at all on this dataset — it returns an RDM — so
correlation-CV does not fail fast on a missing grouping descriptor. -/
theorem C2_missing_descriptor_counterexample :
    calc_rdm_correlation_cv idOps ⟨[], []⟩ none =
      .ok (⟨[[]], "correlation_cv", []⟩, ⟨[], []⟩) := by
  rfl

/-- Witness for C2: the amended theorem's crossnobis case at a concrete
dataset with valid (absent) noise. -/
theorem C2_missing_descriptor_errors_witness :
    calc_rdm_crossnobis idOps ⟨[[1]], [("cond", [0])]⟩ none .nothing none =
      .error (.valueError
        "descriptor must be a string! Crossvalidationrequires multiple measurements to be grouped") :=
  C2_missing_descriptor_errors.1 idOps ⟨[[1]], [("cond", [0])]⟩ .nothing
    .nothing none (by simp [check_noise])

/-- Decompose a successful crossnobis call into its pipeline stages. -/
lemma crossnobis_ok_parts {ops : NumOps} {d : Dataset} {key : String}
    {noise : Noise} {cvd : Option String} {r : RDMs} {d' : Dataset}
    (h : calc_rdm_crossnobis ops d (some key) noise cvd = .ok (r, d')) :
    ∃ (noise1 : Noise) (dk : Dataset × String) (cvl : List ℕ) (rdms : Mat),
      check_noise d.n_channel noise = .ok noise1 ∧
      resolveCv d key cvd = .ok dk ∧
      dk.1.sort_by key = .ok d' ∧
      lookupCvl d' dk.2 = .ok cvl ∧
      crossnobisNoiseBranch ops d' dk.2 key (npUnique cvl) noise1 = .ok rdms ∧
      r = mkRDMsVec (meanAxis0 rdms) "crossnobis" := by
  unfold calc_rdm_crossnobis at h
  obtain ⟨noise1, hn, h2⟩ := except_bind_ok h
  obtain ⟨dk, hdk, h3⟩ := except_bind_ok h2
  obtain ⟨d2, hsort, h4⟩ := except_bind_ok h3
  obtain ⟨cvl, hcvl, h5⟩ := except_bind_ok h4
  obtain ⟨rdms, hrdms, h6⟩ := except_bind_ok h5
  obtain ⟨avg, _, h7⟩ := except_bind_ok h6
  simp only [pure, Except.pure, Except.ok.injEq, Prod.mk.injEq] at h7
  obtain ⟨hr, hd2⟩ := h7
  subst hd2
  exact ⟨noise1, dk, cvl, rdms, hn, hdk, hsort, hcvl, hrdms, hr.symm⟩

/-- Decompose a successful Poisson-CV call into its pipeline stages. -/
lemma poisson_cv_ok_parts {ops : NumOps} {d : Dataset} {key : String}
    {pl pw : ℚ} {cvd : Option String} {r : RDMs} {d' : Dataset}
    (h : calc_rdm_poisson_cv ops d (some key) pl pw cvd = .ok (r, d')) :
    ∃ (dk : Dataset × String) (cvl : List ℕ) (rdm : Vec),
      resolveCv d key cvd = .ok dk ∧
      dk.1.sort_by key = .ok d' ∧
      lookupCvl d' dk.2 = .ok cvl ∧
      ((npUnique cvl).foldlM (fun (_ : Option Vec) fold =>
          (poisson_cv_fold ops d' dk.2 key (npUnique cvl) pl pw fold).map some)
        none) = .ok (some rdm) ∧
      r = mkRDMsVec rdm "poisson_cv" := by
  unfold calc_rdm_poisson_cv at h
  obtain ⟨dk, hdk, h3⟩ := except_bind_ok h
  obtain ⟨d2, hsort, h4⟩ := except_bind_ok h3
  obtain ⟨cvl, hcvl, h5⟩ := except_bind_ok h4
  obtain ⟨rdmLast, hfold, h6⟩ := except_bind_ok h5
  cases rdmLast with
  | none => simp at h6
  | some rdm =>
    dsimp only at h6
    obtain ⟨avg, _, h7⟩ := except_bind_ok h6
    simp only [pure, Except.pure, Except.ok.injEq, Prod.mk.injEq] at h7
    obtain ⟨hr, hd2⟩ := h7
    subst hd2
    exact ⟨dk, cvl, rdm, hdk, hsort, hcvl, hfold, hr.symm⟩

/-- A successful `resolveCv` with an explicit key returns the dataset as is. -/
lemma resolveCv_some {d : Dataset} {key k : String} {dk : Dataset × String}
    (h : resolveCv d key (some k) = .ok dk) : dk = (d, k) := by
  simp only [resolveCv, pure, Except.pure, Except.ok.injEq] at h
  exact h.symm

/-- A successful `resolveCv` without a key injects the derived fold labels. -/
lemma resolveCv_none {d : Dataset} {key : String} {dk : Dataset × String}
    (h : resolveCv d key none = .ok dk) :
    ∃ cv, gen_default_cv_descriptor d key = .ok cv ∧
      dk = (d.setDesc "cv_desc" cv, "cv_desc") := by
  unfold resolveCv at h
  obtain ⟨cv, hcv, h2⟩ := except_bind_ok h
  simp only [pure, Except.pure, Except.ok.injEq] at h2
  exact ⟨cv, hcv, h2.symm⟩

/-- C4 (amended): the non-cross-validated estimators (and correlation-CV)
return their input dataset unchanged; crossnobis and Poisson-CV, however,
sort the dataset in place by the pattern descriptor — and both (not only
crossnobis) inject the derived `'cv_desc'` fold labels when no
`cv_descriptor` is supplied; noise validation is value-preserving. -/
theorem C4_estimator_frame_effects :
    (∀ (d : Dataset) (descriptor : Option String) (r : RDMs) (d' : Dataset),
       calc_rdm_euclid d descriptor = .ok (r, d') → d' = d)
  ∧ (∀ (ops : NumOps) (d : Dataset) (descriptor : Option String) (r : RDMs)
       (d' : Dataset),
       calc_rdm_correlation ops d descriptor = .ok (r, d') → d' = d)
  ∧ (∀ (ops : NumOps) (d : Dataset) (descriptor : Option String) (r : RDMs)
       (d' : Dataset),
       calc_rdm_correlation_cv ops d descriptor = .ok (r, d') → d' = d)
  ∧ (∀ (d : Dataset) (descriptor : Option String) (noise : Noise) (r : RDMs)
       (d' : Dataset),
       calc_rdm_mahalanobis d descriptor noise = .ok (r, d') → d' = d)
  ∧ (∀ (ops : NumOps) (d : Dataset) (descriptor : Option String) (pl pw : ℚ)
       (r : RDMs) (d' : Dataset),
       calc_rdm_poisson ops d descriptor pl pw = .ok (r, d') → d' = d)
  ∧ (∀ (ops : NumOps) (d : Dataset) (key ck : String) (noise : Noise)
       (r : RDMs) (d' : Dataset),
       calc_rdm_crossnobis ops d (some key) noise (some ck) = .ok (r, d') →
       d.sort_by key = .ok d')
  ∧ (∀ (ops : NumOps) (d : Dataset) (key : String) (noise : Noise) (r : RDMs)
       (d' : Dataset),
       calc_rdm_crossnobis ops d (some key) noise none = .ok (r, d') →
       ∃ cv, gen_default_cv_descriptor d key = .ok cv ∧
         (d.setDesc "cv_desc" cv).sort_by key = .ok d')
  ∧ (∀ (ops : NumOps) (d : Dataset) (key ck : String) (pl pw : ℚ) (r : RDMs)
       (d' : Dataset),
       calc_rdm_poisson_cv ops d (some key) pl pw (some ck) = .ok (r, d') →
       d.sort_by key = .ok d')
  ∧ (∀ (ops : NumOps) (d : Dataset) (key : String) (pl pw : ℚ) (r : RDMs)
       (d' : Dataset),
       calc_rdm_poisson_cv ops d (some key) pl pw none = .ok (r, d') →
       ∃ cv, gen_default_cv_descriptor d key = .ok cv ∧
         (d.setDesc "cv_desc" cv).sort_by key = .ok d')
  ∧ (∀ (nc : ℕ) (noise noise' : Noise),
       check_noise nc noise = .ok noise' → noise' = noise) := by
  have heuclid : ∀ (d : Dataset) (descriptor : Option String) (r : RDMs)
      (d' : Dataset), calc_rdm_euclid d descriptor = .ok (r, d') → d' = d := by
    intro d descriptor r d' h
    unfold calc_rdm_euclid at h
    obtain ⟨⟨M, labels, key⟩, _, h2⟩ := except_bind_ok h
    simp only [pure, Except.pure, Except.ok.injEq, Prod.mk.injEq] at h2
    exact h2.2.symm
  refine ⟨heuclid, ?_, ?_, ?_, ?_, ?_, ?_, ?_, ?_, ?_⟩
  · intro ops d descriptor r d' h
    unfold calc_rdm_correlation at h
    obtain ⟨⟨M, labels, key⟩, _, h2⟩ := except_bind_ok h
    simp only [pure, Except.pure, Except.ok.injEq, Prod.mk.injEq] at h2
    exact h2.2.symm
  · intro ops d descriptor r d' h
    unfold calc_rdm_correlation_cv at h
    obtain ⟨⟨M, labels, key⟩, _, h2⟩ := except_bind_ok h
    dsimp only at h2
    obtain ⟨mags, _, h3⟩ := except_bind_ok h2
    simp only [pure, Except.pure, Except.ok.injEq, Prod.mk.injEq] at h3
    exact h3.2.symm
  · intro d descriptor noise r d' h
    cases noise with
    | nothing => exact heuclid d descriptor r d' h
    | matrix nm =>
      unfold calc_rdm_mahalanobis at h
      obtain ⟨⟨M, labels, key⟩, _, h2⟩ := except_bind_ok h
      dsimp only at h2
      obtain ⟨noise1, _, h3⟩ := except_bind_ok h2
      cases noise1 with
      | matrix nm' =>
        simp only [pure, Except.pure, Except.ok.injEq, Prod.mk.injEq] at h3
        exact h3.2.symm
      | nothing => simp at h3
      | listN l => simp at h3
      | dictN l => simp at h3
    | listN nl =>
      unfold calc_rdm_mahalanobis at h
      obtain ⟨⟨M, labels, key⟩, _, h2⟩ := except_bind_ok h
      dsimp only at h2
      obtain ⟨noise1, _, h3⟩ := except_bind_ok h2
      cases noise1 with
      | matrix nm' =>
        simp only [pure, Except.pure, Except.ok.injEq, Prod.mk.injEq] at h3
        exact h3.2.symm
      | nothing => simp at h3
      | listN l => simp at h3
      | dictN l => simp at h3
    | dictN nd =>
      unfold calc_rdm_mahalanobis at h
      obtain ⟨⟨M, labels, key⟩, _, h2⟩ := except_bind_ok h
      dsimp only at h2
      obtain ⟨noise1, _, h3⟩ := except_bind_ok h2
      cases noise1 with
      | matrix nm' =>
        simp only [pure, Except.pure, Except.ok.injEq, Prod.mk.injEq] at h3
        exact h3.2.symm
      | nothing => simp at h3
      | listN l => simp at h3
      | dictN l => simp at h3
  · intro ops d descriptor pl pw r d' h
    unfold calc_rdm_poisson at h
    obtain ⟨⟨M, labels, key⟩, _, h2⟩ := except_bind_ok h
    simp only [pure, Except.pure, Except.ok.injEq, Prod.mk.injEq] at h2
    exact h2.2.symm
  · intro ops d key ck noise r d' h
    obtain ⟨noise1, dk, cvl, rdms, _, hdk, hsort, _, _, _⟩ :=
      crossnobis_ok_parts h
    rw [resolveCv_some hdk] at hsort
    exact hsort
  · intro ops d key noise r d' h
    obtain ⟨noise1, dk, cvl, rdms, _, hdk, hsort, _, _, _⟩ :=
      crossnobis_ok_parts h
    obtain ⟨cv, hcv, hdkeq⟩ := resolveCv_none hdk
    rw [hdkeq] at hsort
    exact ⟨cv, hcv, hsort⟩
  · intro ops d key ck pl pw r d' h
    obtain ⟨dk, cvl, rdm, hdk, hsort, _, _, _⟩ := poisson_cv_ok_parts h
    rw [resolveCv_some hdk] at hsort
    exact hsort
  · intro ops d key pl pw r d' h
    obtain ⟨dk, cvl, rdm, hdk, hsort, _, _, _⟩ := poisson_cv_ok_parts h
    obtain ⟨cv, hcv, hdkeq⟩ := resolveCv_none hdk
    rw [hdkeq] at hsort
    exact ⟨cv, hcv, hsort⟩
  · exact fun nc noise noise' h => check_noise_ok_eq nc noise noise' h

/-- Counterexample for C4: crossnobis called with an explicit
`cv_descriptor` (so the documented `'cv_desc'` injection does not apply)
still hands back a dataset different from its input: the observation order
has been sorted by the pattern descriptor. -/
theorem C4_estimator_frame_effects_counterexample :
    calc_rdm_crossnobis idOps ⟨[[1], [2]], [("cond", [1, 0]), ("cv", [0, 0])]⟩
        (some "cond") .nothing (some "cv") =
      .ok (⟨[[]], "crossnobis", []⟩,
           ⟨[[2], [1]], [("cond", [0, 1]), ("cv", [0, 0])]⟩)
  ∧ (⟨[[2], [1]], [("cond", [0, 1]), ("cv", [0, 0])]⟩ : Dataset) ≠
      ⟨[[1], [2]], [("cond", [1, 0]), ("cv", [0, 0])]⟩ := by
  constructor
  · norm_num [calc_rdm_crossnobis, check_noise, Dataset.sort_by,
      Dataset.lookupDesc, Dataset.subset_obs, average_dataset_by, npUnique,
      insertUnique, List.find?, selectRows, vecMean, crossnobisFolds,
      crossnobis_fold, crossnobisNoiseBranch, resolveCv, lookupCvl,
      meanAxis0, mkRDMsVec, shape1, pairsUpper, List.range_succ, rowMean,
      Bind.bind, Except.bind, pure, Except.pure, List.mapM_cons,
      List.mapM_nil, List.mapM, List.mapM.loop, row, vsub, dotQ, matvec,
      show decide ("cond" = "cv") = false from rfl]
  · intro h
    have := congrArg Dataset.obs_descriptors h
    simp at this

/-- A fold of the shape `for fold in folds: rdm = estimate(fold)` keeps only
the final iteration's value. -/
lemma foldlM_overwrite {α β : Type} (g : α → Except PyErr β) :
    ∀ (l : List α) (init v : Option β),
      l.foldlM (fun (_ : Option β) x => (g x).map some) init = .ok v →
      l ≠ [] →
      ∃ lastEl, l.getLast? = some lastEl ∧ (g lastEl).map some = .ok v := by
  intro l
  induction l with
  | nil => intro init v _ hne; exact absurd rfl hne
  | cons x xs ih =>
    intro init v h _
    rw [List.foldlM_cons] at h
    obtain ⟨y, hy, h2⟩ := except_bind_ok h
    cases xs with
    | nil =>
      simp only [List.foldlM_nil, pure, Except.pure, Except.ok.injEq] at h2
      exact ⟨x, rfl, by rw [hy, h2]⟩
    | cons z zs =>
      obtain ⟨lastEl, hlast, hg⟩ := ih y v h2 (by simp)
      exact ⟨lastEl, by rw [List.getLast?_cons_cons]; exact hlast, hg⟩

/-- Unpack a successful `parse_input` with a grouping key. -/
lemma parse_input_some {d : Dataset} {key : String} {M : Mat}
    {desc : List ℕ} {k2 : String}
    (h : parse_input d (some key) = .ok (M, desc, k2)) :
    average_dataset_by d key = .ok (M, desc) ∧ k2 = key := by
  unfold parse_input at h
  obtain ⟨⟨m, dsc⟩, havg, h2⟩ := except_bind_ok h
  simp only [pure, Except.pure, Except.ok.injEq, Prod.mk.injEq] at h2
  obtain ⟨h1, h2', h3⟩ := h2
  subst h1
  subst h2'
  subst h3
  exact ⟨havg, rfl⟩

/-- A successful average has one row and one label per distinct value. -/
lemma average_ok_parts {d : Dataset} {key : String} {labels : List ℕ}
    {M : Mat} {desc : List ℕ} (hlab : d.lookupDesc key = some labels)
    (h : average_dataset_by d key = .ok (M, desc)) :
    M.length = (npUnique labels).length ∧ desc = npUnique labels := by
  simp only [average_dataset_by, hlab, Except.ok.injEq, Prod.mk.injEq] at h
  obtain ⟨hm, hd⟩ := h
  exact ⟨by rw [← hm]; simp, hd.symm⟩

lemma meanAxis0_length (xs : Mat) :
    (meanAxis0 xs).length = (xs.headD []).length := by
  simp [meanAxis0, shape1]

lemma squareToVec_length (m : Mat) :
    (squareToVec m).length = m.length * (m.length - 1) / 2 := by
  simp [squareToVec, length_pairsUpper]

/-- C10: when the cross-validation key has more than one distinct fold,
`calc_rdm_poisson_cv` returns exactly the estimate of the final fold in
sorted unique fold order (test side the last fold, training side all other
folds, as `poisson_cv_fold` computes); the earlier folds' estimates are
discarded rather than averaged. -/
theorem C10_poisson_cv_last_fold_only :
    ∀ (ops : NumOps) (d : Dataset) (key ck : String) (pl pw : ℚ) (r : RDMs)
      (d' : Dataset) (cvl : List ℕ),
      calc_rdm_poisson_cv ops d (some key) pl pw (some ck) = .ok (r, d') →
      lookupCvl d' ck = .ok cvl →
      2 ≤ (npUnique cvl).length →
      ∃ lastFold v,
        (npUnique cvl).getLast? = some lastFold ∧
        poisson_cv_fold ops d' ck key (npUnique cvl) pl pw lastFold = .ok v ∧
        r.dissimilarities = [v] := by
  intro ops d key ck pl pw r d' cvl h hcvl hlen
  obtain ⟨dk, cvl', rdm, hdk, hsort, hcvl', hfold, hr⟩ := poisson_cv_ok_parts h
  have hdk2 : dk = (d, ck) := resolveCv_some hdk
  subst hdk2
  rw [hcvl] at hcvl'
  simp only [Except.ok.injEq] at hcvl'
  subst hcvl'
  have hne : npUnique cvl ≠ [] := by
    intro hnil
    rw [hnil] at hlen
    simp at hlen
  obtain ⟨lastEl, hlast, hg⟩ := foldlM_overwrite _ _ _ _ hfold hne
  obtain ⟨v, hv, hsome⟩ := except_map_ok hg
  simp only [Option.some.injEq] at hsome
  subst hsome
  exact ⟨lastEl, v, hlast, hv, by rw [hr]; rfl⟩

/-- Witness for C10: a two-fold, two-condition dataset; the returned
dissimilarity vector is exactly the last (second) fold's estimate. -/
theorem C10_poisson_cv_last_fold_only_witness :
    ∃ lastFold v,
      (npUnique [0,1,1,0]).getLast? = some lastFold ∧
      poisson_cv_fold idOps
        ⟨[[1,2],[5,6],[3,5],[7,9]], [("cond",[0,0,1,1]), ("cv",[0,1,1,0])]⟩
        "cv" "cond" (npUnique [0,1,1,0]) 1 (1/10) lastFold = .ok v ∧
      (⟨[[-950/121]], "poisson_cv", []⟩ : RDMs).dissimilarities = [v] :=
  C10_poisson_cv_last_fold_only idOps
    ⟨[[1,2],[3,5],[5,6],[7,9]], [("cond",[0,1,0,1]), ("cv",[0,1,1,0])]⟩
    "cond" "cv" 1 (1/10) ⟨[[-950/121]], "poisson_cv", []⟩
    ⟨[[1,2],[5,6],[3,5],[7,9]], [("cond",[0,0,1,1]), ("cv",[0,1,1,0])]⟩
    [0,1,1,0]
    (by norm_num [calc_rdm_poisson_cv, resolveCv, Dataset.sort_by, lookupCvl,
      Dataset.lookupDesc, Dataset.subset_obs, average_dataset_by,
      poisson_cv_fold, priorShift, calc_pairwise_differences, pairsUpper,
      npUnique, insertUnique, selectRows, vecMean, row, vsub, dotQ, shape1,
      mkRDMsVec, rowMean, List.range_succ, List.find?, Bind.bind, Except.bind,
      pure, Except.pure, List.foldlM_cons, List.foldlM_nil, List.mapM_cons,
      List.mapM_nil, idOps, Except.map,
      show decide ("cond" = "cv") = false from rfl,
      show decide ("cv" = "cond") = false from rfl,
      show decide ("cv" = "cv") = true from rfl,
      show decide ("cond" = "cond") = true from rfl])
    (by rfl) (by norm_num [npUnique, insertUnique])

lemma getD_of_get? {α : Type} {l : List α} {i : ℕ} {y : α} (d : α)
    (h : l.get? i = some y) : l.getD i d = y := by
  rw [List.getD_eq_getElem?_getD, ← List.get?_eq_getElem?, h]
  rfl

lemma get?_eq_getD {α : Type} {l : List α} {i : ℕ} (h : i < l.length) (d : α) :
    l.get? i = some (l.getD i d) := by
  rw [List.get?_eq_getElem?, List.getElem?_eq_getElem h,
    List.getD_eq_getElem _ _ h]

/-- C3: crossnobis with a per-fold list of noise precisions computes one
partial RDM per unordered pair of distinct folds `i < j`, using as combined
precision the inverse of the sum of the two folds' covariances (each
covariance the inverse of the fold's precision), and returns the arithmetic
mean (`meanAxis0`) over all fold pairs. -/
theorem C3_crossnobis_noise_list :
    ∀ (ops : NumOps) (d : Dataset) (key ck : String) (nl : List Noise)
      (r : RDMs) (d' : Dataset) (cvl : List ℕ) (F : ℕ)
      (matF msF : ℕ → Mat),
      calc_rdm_crossnobis ops d (some key) (.listN nl) (some ck) = .ok (r, d') →
      lookupCvl d' ck = .ok cvl →
      F = (npUnique cvl).length →
      (∀ i, i < F → nl.get? i = some (.matrix (matF i))) →
      (∀ i, i < F →
        ∃ data, d'.subset_obs ck [(npUnique cvl).getD i 0] = .ok data ∧
          ∃ p, average_dataset_by data key = .ok p ∧ p.1 = msF i) →
      r.dissimilarities = [meanAxis0 ((pairsUpper F).map fun p =>
        calc_rdm_crossnobis_single (msF p.1) (msF p.2)
          (ops.invQ (matAdd (ops.invQ (matF p.1)) (ops.invQ (matF p.2)))))] := by
  intro ops d key ck nl r d' cvl F matF msF h hcvl hF hmat hms
  obtain ⟨noise1, dk, cvl', rdms, hn, hdk, hsort, hcvl', hrdms, hr⟩ :=
    crossnobis_ok_parts h
  have hn1 : noise1 = .listN nl := check_noise_ok_eq _ _ _ hn
  subst hn1
  have hdk2 : dk = (d, ck) := resolveCv_some hdk
  subst hdk2
  rw [hcvl] at hcvl'
  simp only [Except.ok.injEq] at hcvl'
  subst hcvl'
  simp only [crossnobisNoiseBranch] at hrdms
  obtain ⟨ms, hmsE, h2⟩ := except_bind_ok hrdms
  obtain ⟨variances, hvarE, h3⟩ := except_bind_ok h2
  simp only [pure, Except.pure, Except.ok.injEq] at h3
  have hmsD : ∀ i, i < F → ms.getD i [] = msF i := by
    intro i hi
    have hget : (npUnique cvl).get? i = some ((npUnique cvl).getD i 0) :=
      get?_eq_getD (by omega) 0
    obtain ⟨y, hy, hgy⟩ := mapM_ok_get hmsE i _ hget
    obtain ⟨data, hdata, p, havg, hp1⟩ := hms i hi
    have : (do
        let data ← d'.subset_obs ck [(npUnique cvl).getD i 0]
        let mp ← average_dataset_by data key
        pure mp.1 : Except PyErr Mat) = .ok (msF i) := by
      rw [hdata]
      simp only [Bind.bind, Except.bind]
      rw [havg]
      simp [pure, Except.pure, hp1]
    rw [this] at hgy
    simp only [Except.ok.injEq] at hgy
    subst hgy
    exact getD_of_get? [] hy
  have hvarD : ∀ i, i < F → variances.getD i [] = ops.invQ (matF i) := by
    intro i hi
    have hget : (List.range F).get? i = some i := by
      rw [List.get?_eq_getElem?, List.getElem?_eq_getElem (by simpa using hi)]
      simp
    have hvarE' : (List.range F).mapM (fun i => do
        let ni ← noiseIdx (Noise.listN nl) i
        invNoise ops ni) = .ok variances := by
      rw [hF]
      exact hvarE
    obtain ⟨y, hy, hgy⟩ := mapM_ok_get hvarE' i i hget
    have hmat' : nl[i]? = some (Noise.matrix (matF i)) := by
      rw [← List.get?_eq_getElem?]
      exact hmat i hi
    have : (do
        let ni ← noiseIdx (Noise.listN nl) i
        invNoise ops ni : Except PyErr Mat) = .ok (ops.invQ (matF i)) := by
      simp [noiseIdx, hmat', Bind.bind, Except.bind, invNoise]
    rw [this] at hgy
    simp only [Except.ok.injEq] at hgy
    subst hgy
    exact getD_of_get? [] hy
  rw [hr, ← h3]
  show [meanAxis0 _] = [meanAxis0 _]
  congr 1
  congr 1
  rw [← hF]
  apply List.map_congr_left
  intro p hp
  obtain ⟨h12, h2F⟩ := mem_pairsUpper.mp hp
  rw [hmsD p.1 (by omega), hmsD p.2 h2F, hvarD p.1 (by omega), hvarD p.2 h2F]

/-- Witness for C3: a two-fold, two-condition dataset with a per-fold list
of two identity precisions; one fold pair `(0,1)`. -/
theorem C3_crossnobis_noise_list_witness :
    (⟨[[-19]], "crossnobis", []⟩ : RDMs).dissimilarities =
      [meanAxis0 ((pairsUpper 2).map fun p =>
        calc_rdm_crossnobis_single
          ([[[1,2],[7,9]], [[5,6],[3,5]]].getD p.1 [])
          ([[[1,2],[7,9]], [[5,6],[3,5]]].getD p.2 [])
          (idOps.invQ (matAdd (idOps.invQ [[1,0],[0,1]])
            (idOps.invQ [[1,0],[0,1]]))))] :=
  C3_crossnobis_noise_list idOps
    ⟨[[1,2],[3,5],[5,6],[7,9]], [("cond",[0,1,0,1]), ("cv",[0,1,1,0])]⟩
    "cond" "cv" [.matrix [[1,0],[0,1]], .matrix [[1,0],[0,1]]]
    ⟨[[-19]], "crossnobis", []⟩
    ⟨[[1,2],[5,6],[3,5],[7,9]], [("cond",[0,0,1,1]), ("cv",[0,1,1,0])]⟩
    [0,1,1,0] 2
    (fun _ => [[1,0],[0,1]])
    (fun i => [[[1,2],[7,9]], [[5,6],[3,5]]].getD i [])
    (by norm_num [calc_rdm_crossnobis, check_noise, checkList, matShapeOk,
      Dataset.n_channel, resolveCv, Dataset.sort_by, lookupCvl, Dataset.lookupDesc,
      Dataset.subset_obs, average_dataset_by, crossnobisNoiseBranch,
      crossnobisFoldAverages, crossnobisVariances, noiseIdx, invNoise,
      calc_rdm_crossnobis_single, calc_pairwise_differences, pairsUpper,
      matAdd, matAdd.vsum, matvec, npUnique, insertUnique, selectRows, vecMean, row, vsub,
      dotQ, shape1, mkRDMsVec, rowMean, meanAxis0, List.range_succ,
      List.find?, Bind.bind, Except.bind, pure, Except.pure,
      List.foldlM_cons, List.foldlM_nil, List.mapM_cons, List.mapM_nil,
      List.mapM, List.mapM.loop, idOps, Except.map,
      show decide ("cond" = "cv") = false from rfl,
      show decide ("cv" = "cond") = false from rfl,
      show decide ("cv" = "cv") = true from rfl,
      show decide ("cond" = "cond") = true from rfl])
    rfl rfl
    (by
      intro i hi
      rcases i with _ | _ | i
      · rfl
      · rfl
      · omega)
    (by
      intro i hi
      rcases i with _ | _ | i
      · refine ⟨⟨[[1,2],[7,9]], [("cond",[0,1]), ("cv",[0,0])]⟩, ?_,
          ([[1,2],[7,9]], [0,1]), ?_, rfl⟩
        · norm_num [Dataset.subset_obs, Dataset.lookupDesc, List.find?,
            selectRows, npUnique, insertUnique,
            show decide ("cond" = "cv") = false from rfl,
            show decide ("cv" = "cv") = true from rfl]
        · norm_num [average_dataset_by, Dataset.lookupDesc, List.find?,
            selectRows, vecMean, npUnique, insertUnique, shape1,
            List.range_succ,
            show decide ("cond" = "cond") = true from rfl]
      · refine ⟨⟨[[5,6],[3,5]], [("cond",[0,1]), ("cv",[1,1])]⟩, ?_,
          ([[5,6],[3,5]], [0,1]), ?_, rfl⟩
        · norm_num [Dataset.subset_obs, Dataset.lookupDesc, List.find?,
            selectRows, npUnique, insertUnique,
            show decide ("cond" = "cv") = false from rfl,
            show decide ("cv" = "cv") = true from rfl]
        · norm_num [average_dataset_by, Dataset.lookupDesc, List.find?,
            selectRows, vecMean, npUnique, insertUnique, shape1,
            List.range_succ,
            show decide ("cond" = "cond") = true from rfl]
      · omega)

lemma headD_of_get?_zero {α : Type} {l : List α} {y : α} (d : α)
    (h : l.get? 0 = some y) : l.headD d = y := by
  cases l with
  | nil => simp at h
  | cons a t =>
    simp only [List.get?] at h
    cases h
    rfl

lemma priorShift_length (m : Mat) (pl pw : ℚ) :
    (priorShift m pl pw).length = m.length := by
  simp [priorShift]

/-- Decompose one successful crossnobis fold iteration. -/
lemma crossnobis_fold_ok_parts {d2 : Dataset} {cvKey descKey : String}
    {cv_folds : List ℕ} {noiseMat : Option Mat} {fold : ℕ} {v : Vec}
    (h : crossnobis_fold d2 cvKey descKey cv_folds noiseMat fold = .ok v) :
    ∃ data_test data_train mtr mte,
      d2.subset_obs cvKey [fold] = .ok data_test ∧
      d2.subset_obs cvKey (cv_folds.filter fun x => x ≠ fold) = .ok data_train ∧
      average_dataset_by data_train descKey = .ok mtr ∧
      average_dataset_by data_test descKey = .ok mte ∧
      v.length = mtr.1.length * (mtr.1.length - 1) / 2 := by
  unfold crossnobis_fold at h
  obtain ⟨data_test, ht, h2⟩ := except_bind_ok h
  obtain ⟨data_train, htr, h3⟩ := except_bind_ok h2
  obtain ⟨mtr, hmtr, h4⟩ := except_bind_ok h3
  obtain ⟨mte, hmte, h5⟩ := except_bind_ok h4
  simp only [pure, Except.pure, Except.ok.injEq] at h5
  refine ⟨data_test, data_train, mtr, mte, ht, htr, hmtr, hmte, ?_⟩
  rw [← h5]
  simp [length_pairsUpper]

/-- Decompose one successful Poisson-CV fold iteration. -/
lemma poisson_cv_fold_ok_parts {ops : NumOps} {d2 : Dataset}
    {cvKey descKey : String} {cv_folds : List ℕ} {pl pw : ℚ} {fold : ℕ}
    {v : Vec}
    (h : poisson_cv_fold ops d2 cvKey descKey cv_folds pl pw fold = .ok v) :
    ∃ data_test data_train mtr mte,
      d2.subset_obs cvKey [fold] = .ok data_test ∧
      d2.subset_obs cvKey (cv_folds.filter fun x => x ≠ fold) = .ok data_train ∧
      average_dataset_by data_train descKey = .ok mtr ∧
      average_dataset_by data_test descKey = .ok mte ∧
      v.length = min (mtr.1.length * (mtr.1.length - 1) / 2)
        (mte.1.length * (mte.1.length - 1) / 2) := by
  unfold poisson_cv_fold at h
  obtain ⟨data_test, ht, h2⟩ := except_bind_ok h
  obtain ⟨data_train, htr, h3⟩ := except_bind_ok h2
  obtain ⟨mtr, hmtr, h4⟩ := except_bind_ok h3
  obtain ⟨mte, hmte, h5⟩ := except_bind_ok h4
  simp only [pure, Except.pure, Except.ok.injEq] at h5
  refine ⟨data_test, data_train, mtr, mte, ht, htr, hmtr, hmte, ?_⟩
  rw [← h5]
  simp [List.length_zipWith, length_calc_pairwise_differences,
    priorShift_length]

/-- C1: with `C` distinct condition labels present after averaging, each of
the seven estimators returns one condensed dissimilarity vector of length
exactly `C·(C−1)/2`. -/
theorem C1_condensed_vector_length :
    (∀ (d : Dataset) (key : String) (labels : List ℕ) (r : RDMs) (d' : Dataset),
       d.lookupDesc key = some labels →
       calc_rdm_euclid d (some key) = .ok (r, d') →
       r.dissimilarities.length = 1 ∧
       (r.dissimilarities.headD []).length =
         (npUnique labels).length * ((npUnique labels).length - 1) / 2)
  ∧ (∀ (ops : NumOps) (d : Dataset) (key : String) (labels : List ℕ)
       (r : RDMs) (d' : Dataset),
       d.lookupDesc key = some labels →
       calc_rdm_correlation ops d (some key) = .ok (r, d') →
       r.dissimilarities.length = 1 ∧
       (r.dissimilarities.headD []).length =
         (npUnique labels).length * ((npUnique labels).length - 1) / 2)
  ∧ (∀ (ops : NumOps) (d : Dataset) (key : String) (labels : List ℕ)
       (r : RDMs) (d' : Dataset),
       d.lookupDesc key = some labels →
       calc_rdm_correlation_cv ops d (some key) = .ok (r, d') →
       r.dissimilarities.length = 1 ∧
       (r.dissimilarities.headD []).length =
         (npUnique labels).length * ((npUnique labels).length - 1) / 2)
  ∧ (∀ (d : Dataset) (key : String) (labels : List ℕ) (nm : Mat) (r : RDMs)
       (d' : Dataset),
       d.lookupDesc key = some labels →
       calc_rdm_mahalanobis d (some key) (.matrix nm) = .ok (r, d') →
       r.dissimilarities.length = 1 ∧
       (r.dissimilarities.headD []).length =
         (npUnique labels).length * ((npUnique labels).length - 1) / 2)
  ∧ (∀ (ops : NumOps) (d : Dataset) (key : String) (labels : List ℕ)
       (pl pw : ℚ) (r : RDMs) (d' : Dataset),
       d.lookupDesc key = some labels →
       calc_rdm_poisson ops d (some key) pl pw = .ok (r, d') →
       r.dissimilarities.length = 1 ∧
       (r.dissimilarities.headD []).length =
         (npUnique labels).length * ((npUnique labels).length - 1) / 2)
  ∧ (∀ (ops : NumOps) (d : Dataset) (key ck : String) (r : RDMs)
       (d' : Dataset) (cvl : List ℕ) (f0 : ℕ) (ft : List ℕ) (C : ℕ),
       calc_rdm_crossnobis ops d (some key) .nothing (some ck) = .ok (r, d') →
       lookupCvl d' ck = .ok cvl →
       npUnique cvl = f0 :: ft →
       (∃ data, d'.subset_obs ck ((npUnique cvl).filter fun x => x ≠ f0)
           = .ok data ∧
         ∃ p, average_dataset_by data key = .ok p ∧ p.1.length = C) →
       r.dissimilarities.length = 1 ∧
       (r.dissimilarities.headD []).length = C * (C - 1) / 2)
  ∧ (∀ (ops : NumOps) (d : Dataset) (key ck : String) (pl pw : ℚ) (r : RDMs)
       (d' : Dataset) (cvl : List ℕ) (lf : ℕ) (C : ℕ),
       calc_rdm_poisson_cv ops d (some key) pl pw (some ck) = .ok (r, d') →
       lookupCvl d' ck = .ok cvl →
       (npUnique cvl).getLast? = some lf →
       (∃ data, d'.subset_obs ck ((npUnique cvl).filter fun x => x ≠ lf)
           = .ok data ∧
         ∃ p, average_dataset_by data key = .ok p ∧ p.1.length = C) →
       (∃ data, d'.subset_obs ck [lf] = .ok data ∧
         ∃ p, average_dataset_by data key = .ok p ∧ p.1.length = C) →
       r.dissimilarities.length = 1 ∧
       (r.dissimilarities.headD []).length = C * (C - 1) / 2) := by
  refine ⟨?_, ?_, ?_, ?_, ?_, ?_, ?_⟩
  · intro d key labels r d' hlab h
    unfold calc_rdm_euclid at h
    obtain ⟨⟨M, desc, k2⟩, hpi, h2⟩ := except_bind_ok h
    obtain ⟨havg, _⟩ := parse_input_some hpi
    obtain ⟨hM, _⟩ := average_ok_parts hlab havg
    simp only [pure, Except.pure, Except.ok.injEq, Prod.mk.injEq] at h2
    rw [← h2.1]
    constructor
    · rfl
    · simp [mkRDMsVec, length_calc_pairwise_differences, hM]
  · intro ops d key labels r d' hlab h
    unfold calc_rdm_correlation at h
    obtain ⟨⟨M, desc, k2⟩, hpi, h2⟩ := except_bind_ok h
    obtain ⟨havg, _⟩ := parse_input_some hpi
    obtain ⟨hM, _⟩ := average_ok_parts hlab havg
    simp only [pure, Except.pure, Except.ok.injEq, Prod.mk.injEq] at h2
    rw [← h2.1]
    constructor
    · rfl
    · simp [mkRDMsSquare, squareToVec_length, hM]
  · intro ops d key labels r d' hlab h
    unfold calc_rdm_correlation_cv at h
    obtain ⟨⟨M, desc, k2⟩, hpi, h2⟩ := except_bind_ok h
    obtain ⟨havg, _⟩ := parse_input_some hpi
    obtain ⟨hM, hdesc⟩ := average_ok_parts hlab havg
    obtain ⟨mags, _, h3⟩ := except_bind_ok h2
    simp only [pure, Except.pure, Except.ok.injEq, Prod.mk.injEq] at h3
    rw [← h3.1]
    constructor
    · rfl
    · simp [mkRDMsVec, length_pairsUpper, hdesc]
  · intro d key labels nm r d' hlab h
    unfold calc_rdm_mahalanobis at h
    obtain ⟨⟨M, desc, k2⟩, hpi, h2⟩ := except_bind_ok h
    obtain ⟨havg, _⟩ := parse_input_some hpi
    obtain ⟨hM, _⟩ := average_ok_parts hlab havg
    obtain ⟨noise1, _, h3⟩ := except_bind_ok h2
    cases noise1 with
    | matrix nm' =>
      simp only [pure, Except.pure, Except.ok.injEq, Prod.mk.injEq] at h3
      rw [← h3.1]
      constructor
      · rfl
      · simp [mkRDMsVec, List.length_zipWith,
          length_calc_pairwise_differences, hM]
    | nothing => simp at h3
    | listN l => simp at h3
    | dictN l => simp at h3
  · intro ops d key labels pl pw r d' hlab h
    unfold calc_rdm_poisson at h
    obtain ⟨⟨M, desc, k2⟩, hpi, h2⟩ := except_bind_ok h
    obtain ⟨havg, _⟩ := parse_input_some hpi
    obtain ⟨hM, _⟩ := average_ok_parts hlab havg
    simp only [pure, Except.pure, Except.ok.injEq, Prod.mk.injEq] at h2
    rw [← h2.1]
    constructor
    · rfl
    · simp [mkRDMsVec, List.length_zipWith, length_calc_pairwise_differences,
        priorShift_length, hM]
  · intro ops d key ck r d' cvl f0 ft C h hcvl hfolds hfold0
    obtain ⟨noise1, dk, cvl', rdms, hn, hdk, hsort, hcvl', hrdms, hr⟩ :=
      crossnobis_ok_parts h
    have hn1 : noise1 = .nothing := check_noise_ok_eq _ _ _ hn
    subst hn1
    have hdk2 : dk = (d, ck) := resolveCv_some hdk
    subst hdk2
    rw [hcvl] at hcvl'
    simp only [Except.ok.injEq] at hcvl'
    subst hcvl'
    simp only [crossnobisNoiseBranch, crossnobisFolds] at hrdms
    have hget0 : (npUnique cvl).get? 0 = some f0 := by
      rw [hfolds]; rfl
    obtain ⟨y, hy0, hgy⟩ := mapM_ok_get hrdms 0 f0 hget0
    obtain ⟨dt, dtr, mtr, mte, _, htr, hmtr, _, hylen⟩ :=
      crossnobis_fold_ok_parts hgy
    obtain ⟨data, hdata, p, havg, hplen⟩ := hfold0
    rw [hdata] at htr
    simp only [Except.ok.injEq] at htr
    subst htr
    rw [havg] at hmtr
    simp only [Except.ok.injEq] at hmtr
    subst hmtr
    rw [hr]
    constructor
    · rfl
    · show (meanAxis0 rdms).length = _
      rw [meanAxis0_length, headD_of_get?_zero [] hy0, hylen, hplen]
  · intro ops d key ck pl pw r d' cvl lf C h hcvl hlast htrain htest
    obtain ⟨dk, cvl', rdm, hdk, hsort, hcvl', hfold, hr⟩ := poisson_cv_ok_parts h
    have hdk2 : dk = (d, ck) := resolveCv_some hdk
    subst hdk2
    rw [hcvl] at hcvl'
    simp only [Except.ok.injEq] at hcvl'
    subst hcvl'
    have hne : npUnique cvl ≠ [] := by
      intro hnil
      rw [hnil] at hlast
      simp at hlast
    obtain ⟨lastEl, hlast', hg⟩ := foldlM_overwrite _ _ _ _ hfold hne
    rw [hlast] at hlast'
    simp only [Option.some.injEq] at hlast'
    subst hlast'
    obtain ⟨v, hv, hsome⟩ := except_map_ok hg
    simp only [Option.some.injEq] at hsome
    subst hsome
    obtain ⟨dt, dtr, mtr, mte, hte, htr, hmtr, hmte, hvlen⟩ :=
      poisson_cv_fold_ok_parts hv
    obtain ⟨dataTr, hdataTr, pTr, havgTr, hplenTr⟩ := htrain
    rw [hdataTr] at htr
    simp only [Except.ok.injEq] at htr
    subst htr
    rw [havgTr] at hmtr
    simp only [Except.ok.injEq] at hmtr
    subst hmtr
    obtain ⟨dataTe, hdataTe, pTe, havgTe, hplenTe⟩ := htest
    rw [hdataTe] at hte
    simp only [Except.ok.injEq] at hte
    subst hte
    rw [havgTe] at hmte
    simp only [Except.ok.injEq] at hmte
    subst hmte
    rw [hr]
    constructor
    · rfl
    · show v.length = _
      rw [hvlen, hplenTr, hplenTe]
      simp

set_option maxHeartbeats 2000000 in
/-- Witness for C1: all seven estimator clauses applied to the concrete
two-condition dataset `dW` (so `C = 2` and every condensed vector has length
`2·1/2 = 1`). -/
theorem C1_condensed_vector_length_witness :
    ((⟨[[13/2]], "euclidean", []⟩ : RDMs).dissimilarities.length = 1 ∧
      ((⟨[[13/2]], "euclidean", []⟩ : RDMs).dissimilarities.headD []).length =
        (npUnique [0,1,0,1]).length * ((npUnique [0,1,0,1]).length - 1) / 2)
  ∧ ((⟨[[0]], "correlation", []⟩ : RDMs).dissimilarities.length = 1 ∧
      ((⟨[[0]], "correlation", []⟩ : RDMs).dissimilarities.headD []).length =
        (npUnique [0,1,0,1]).length * ((npUnique [0,1,0,1]).length - 1) / 2)
  ∧ ((⟨[[0]], "correlation_cv", []⟩ : RDMs).dissimilarities.length = 1 ∧
      ((⟨[[0]], "correlation_cv", []⟩ : RDMs).dissimilarities.headD []).length =
        (npUnique [0,1,0,1]).length * ((npUnique [0,1,0,1]).length - 1) / 2)
  ∧ ((⟨[[13/2]], "Mahalanobis", []⟩ : RDMs).dissimilarities.length = 1 ∧
      ((⟨[[13/2]], "Mahalanobis", []⟩ : RDMs).dissimilarities.headD []).length =
        (npUnique [0,1,0,1]).length * ((npUnique [0,1,0,1]).length - 1) / 2)
  ∧ ((⟨[[650/121]], "poisson", []⟩ : RDMs).dissimilarities.length = 1 ∧
      ((⟨[[650/121]], "poisson", []⟩ : RDMs).dissimilarities.headD []).length =
        (npUnique [0,1,0,1]).length * ((npUnique [0,1,0,1]).length - 1) / 2)
  ∧ ((⟨[[-19/2]], "crossnobis", []⟩ : RDMs).dissimilarities.length = 1 ∧
      ((⟨[[-19/2]], "crossnobis", []⟩ : RDMs).dissimilarities.headD []).length =
        2 * (2 - 1) / 2)
  ∧ ((⟨[[-950/121]], "poisson_cv", []⟩ : RDMs).dissimilarities.length = 1 ∧
      ((⟨[[-950/121]], "poisson_cv", []⟩ : RDMs).dissimilarities.headD
          []).length = 2 * (2 - 1) / 2) := by
  refine ⟨?_, ?_, ?_, ?_, ?_, ?_, ?_⟩
  · exact C1_condensed_vector_length.1 dW "cond" [0,1,0,1]
      ⟨[[13/2]], "euclidean", []⟩ dW rfl
      (by norm_num [dW, calc_rdm_euclid, parse_input, average_dataset_by,
        Dataset.lookupDesc, List.find?, selectRows, vecMean, npUnique,
        insertUnique, calc_pairwise_differences, pairsUpper, row, vsub, dotQ,
        shape1, mkRDMsVec, rowMean, List.range_succ, Bind.bind, Except.bind,
        pure, Except.pure,
        show decide ("cond" = "cond") = true from rfl])
  · exact C1_condensed_vector_length.2.1 idOps dW "cond" [0,1,0,1]
      ⟨[[0]], "correlation", []⟩ dW rfl
      (by norm_num [dW, idOps, calc_rdm_correlation, parse_input,
        average_dataset_by, Dataset.lookupDesc, List.find?, selectRows,
        vecMean, npUnique, insertUnique, centerVec, rowMean, dotQ, row,
        mkRDMsSquare, squareToVec, pairsUpper, shape1, List.range_succ,
        Bind.bind, Except.bind, pure, Except.pure,
        show decide ("cond" = "cond") = true from rfl])
  · exact C1_condensed_vector_length.2.2.1 idOps dW "cond" [0,1,0,1]
      ⟨[[0]], "correlation_cv", []⟩ dW rfl
      (by norm_num [dW, idOps, calc_rdm_correlation_cv, parse_input,
        average_dataset_by, Dataset.lookupDesc, Dataset.subset_obs,
        List.find?, selectRows, vecMean, npUnique, insertUnique, centerVec,
        rowMean, dotQ, row, calc_magnitude_cv, List.eraseIdx, mkRDMsVec,
        pairsUpper, shape1, List.range_succ, Bind.bind, Except.bind, pure,
        Except.pure, List.mapM_cons, List.mapM_nil, List.mapM,
        List.mapM.loop, Except.map, abs_of_pos,
        show decide ("cond" = "cond") = true from rfl])
  · exact C1_condensed_vector_length.2.2.2.1 dW "cond" [0,1,0,1]
      [[1,0],[0,1]] ⟨[[13/2]], "Mahalanobis", []⟩ dW rfl
      (by norm_num [dW, calc_rdm_mahalanobis, parse_input,
        average_dataset_by, Dataset.lookupDesc, Dataset.n_channel,
        check_noise, matShapeOk, List.find?, selectRows, vecMean, npUnique,
        insertUnique, calc_pairwise_differences, pairsUpper, row, vsub, dotQ,
        matvec, shape1, mkRDMsVec, rowMean, List.range_succ, Bind.bind,
        Except.bind, pure, Except.pure,
        show decide ("cond" = "cond") = true from rfl])
  · exact C1_condensed_vector_length.2.2.2.2.1 idOps dW "cond" [0,1,0,1]
      1 (1/10) ⟨[[650/121]], "poisson", []⟩ dW rfl
      (by norm_num [dW, idOps, calc_rdm_poisson, parse_input,
        average_dataset_by, Dataset.lookupDesc, List.find?, selectRows,
        vecMean, npUnique, insertUnique, priorShift,
        calc_pairwise_differences, pairsUpper, row, vsub, dotQ, shape1,
        mkRDMsVec, rowMean, List.range_succ, Bind.bind, Except.bind, pure,
        Except.pure,
        show decide ("cond" = "cond") = true from rfl])
  · exact C1_condensed_vector_length.2.2.2.2.2.1 idOps dW "cond" "cv"
      ⟨[[-19/2]], "crossnobis", []⟩ dWs [0,1,1,0] 0 [1] 2
      (by norm_num [dW, dWs, idOps, calc_rdm_crossnobis, check_noise,
        resolveCv, Dataset.sort_by, lookupCvl, Dataset.lookupDesc,
        Dataset.subset_obs, average_dataset_by, crossnobisNoiseBranch,
        crossnobisFolds, crossnobis_fold, calc_pairwise_differences,
        pairsUpper, matvec, npUnique, insertUnique, selectRows, vecMean, row,
        vsub, dotQ, shape1, mkRDMsVec, rowMean, meanAxis0, List.range_succ,
        List.find?, Bind.bind, Except.bind, pure, Except.pure,
        List.mapM_cons, List.mapM_nil, List.mapM, List.mapM.loop, Except.map,
        show decide ("cond" = "cv") = false from rfl,
        show decide ("cv" = "cond") = false from rfl,
        show decide ("cv" = "cv") = true from rfl,
        show decide ("cond" = "cond") = true from rfl])
      (by rfl) (by rfl)
      ⟨⟨[[5,6],[3,5]], [("cond", [0,1]), ("cv", [1,1])]⟩,
        by norm_num [dWs, Dataset.subset_obs, Dataset.lookupDesc, List.find?,
          selectRows, npUnique, insertUnique,
          show decide ("cond" = "cv") = false from rfl,
          show decide ("cv" = "cv") = true from rfl],
        ([[5,6],[3,5]], [0,1]),
        by norm_num [average_dataset_by, Dataset.lookupDesc, List.find?,
          selectRows, vecMean, npUnique, insertUnique, shape1,
          List.range_succ,
          show decide ("cond" = "cond") = true from rfl],
        rfl⟩
  · exact C1_condensed_vector_length.2.2.2.2.2.2 idOps dW "cond" "cv"
      1 (1/10) ⟨[[-950/121]], "poisson_cv", []⟩ dWs [0,1,1,0] 1 2
      (by norm_num [dW, dWs, idOps, calc_rdm_poisson_cv, resolveCv,
        Dataset.sort_by, lookupCvl, Dataset.lookupDesc, Dataset.subset_obs,
        average_dataset_by, poisson_cv_fold, priorShift,
        calc_pairwise_differences, pairsUpper, npUnique, insertUnique,
        selectRows, vecMean, row, vsub, dotQ, shape1, mkRDMsVec, rowMean,
        List.range_succ, List.find?, Bind.bind, Except.bind, pure,
        Except.pure, List.foldlM_cons, List.foldlM_nil, List.mapM_cons,
        List.mapM_nil, Except.map,
        show decide ("cond" = "cv") = false from rfl,
        show decide ("cv" = "cond") = false from rfl,
        show decide ("cv" = "cv") = true from rfl,
        show decide ("cond" = "cond") = true from rfl])
      (by rfl) (by rfl)
      ⟨⟨[[1,2],[7,9]], [("cond", [0,1]), ("cv", [0,0])]⟩,
        by norm_num [dWs, Dataset.subset_obs, Dataset.lookupDesc, List.find?,
          selectRows, npUnique, insertUnique,
          show decide ("cond" = "cv") = false from rfl,
          show decide ("cv" = "cv") = true from rfl],
        ([[1,2],[7,9]], [0,1]),
        by norm_num [average_dataset_by, Dataset.lookupDesc, List.find?,
          selectRows, vecMean, npUnique, insertUnique, shape1,
          List.range_succ,
          show decide ("cond" = "cond") = true from rfl],
        rfl⟩
      ⟨⟨[[5,6],[3,5]], [("cond", [0,1]), ("cv", [1,1])]⟩,
        by norm_num [dWs, Dataset.subset_obs, Dataset.lookupDesc, List.find?,
          selectRows, npUnique, insertUnique,
          show decide ("cond" = "cv") = false from rfl,
          show decide ("cv" = "cv") = true from rfl],
        ([[5,6],[3,5]], [0,1]),
        by norm_num [average_dataset_by, Dataset.lookupDesc, List.find?,
          selectRows, vecMean, npUnique, insertUnique, shape1,
          List.range_succ,
          show decide ("cond" = "cond") = true from rfl],
        rfl⟩

/-- Witness for C4: the euclidean clause applied to the canonical fixture. -/
theorem C4_estimator_frame_effects_witness :
    (⟨[[0,0],[1,0],[0,1],[1,1]], []⟩ : Dataset) =
      ⟨[[0,0],[1,0],[0,1],[1,1]], []⟩ :=
  C4_estimator_frame_effects.1 ⟨[[0,0],[1,0],[0,1],[1,1]], []⟩ none
    ⟨[[1/2, 1/2, 1, 1, 1/2, 1/2]], "euclidean", []⟩
    ⟨[[0,0],[1,0],[0,1],[1,1]], []⟩
    (by norm_num [calc_rdm_euclid, parse_input, calc_pairwise_differences,
      pairsUpper, row, vsub, dotQ, shape1, mkRDMsVec, List.range_succ,
      Except.bind])

/-- Witness for C6: the theorem's balanced case applied to the six-element
`[0,0,0,1,1,1]` dataset with three repeats per condition. -/
theorem C6_fold_partitioner_witness :
    ∃ cv, gen_default_cv_descriptor
        ⟨[[1],[2],[3],[4],[5],[6]], [("cond", [0,0,0,1,1,1])]⟩ "cond" = .ok cv ∧
      cv.length = ([0,0,0,1,1,1] : List ℕ).length ∧
      (∀ p, p < ([0,0,0,1,1,1] : List ℕ).length →
        cv.get? p = some ((([0,0,0,1,1,1] : List ℕ).take p).count
            (([0,0,0,1,1,1] : List ℕ).getD p 0)) ∧
        (([0,0,0,1,1,1] : List ℕ).take p).count
            (([0,0,0,1,1,1] : List ℕ).getD p 0) < 3) :=
  C6_fold_partitioner.1 ⟨[[1],[2],[3],[4],[5],[6]], [("cond", [0,0,0,1,1,1])]⟩
    "cond" [0,0,0,1,1,1] 3 rfl (by simp) (by decide)

/-- What `calc_rdm`'s collection loop produces, element by element. -/
lemma calcRdmColl_ok {ops : NumOps} {method : String}
    {descriptor : Option String} {noise : Noise} {cvd : Option String}
    {pl pw : ℚ} :
    ∀ (l : List DataInput) (i0 : ℕ) (rs : List RDMs),
      calcRdmColl ops l method descriptor noise cvd pl pw i0 = .ok rs →
      rs.length = l.length ∧
      ∀ i x, l.get? i = some x → ∃ ni, noiseFor noise (i0 + i) = .ok ni ∧
        calc_rdm ops x method descriptor ni cvd pl pw = .ok (rs.getD i default) := by
  intro l
  induction l with
  | nil =>
    intro i0 rs h
    simp only [calcRdmColl, pure, Except.pure, Except.ok.injEq] at h
    subst h
    exact ⟨rfl, by intro i x hx; simp at hx⟩
  | cons x xs ih =>
    intro i0 rs h
    simp only [calcRdmColl] at h
    have main : ∃ r0 ni rs', noiseFor noise i0 = .ok ni ∧
        calc_rdm ops x method descriptor ni cvd pl pw = .ok r0 ∧
        calcRdmColl ops xs method descriptor noise cvd pl pw (i0 + 1)
          = .ok rs' ∧
        rs = r0 :: rs' := by
      cases noise with
      | nothing =>
        obtain ⟨r0, hr0, h2⟩ := except_bind_ok h
        obtain ⟨rs', hrs', h3⟩ := except_bind_ok h2
        simp only [pure, Except.pure, Except.ok.injEq] at h3
        exact ⟨r0, .nothing, rs', rfl, hr0, hrs', h3.symm⟩
      | matrix nm =>
        obtain ⟨r0, hr0, h2⟩ := except_bind_ok h
        obtain ⟨rs', hrs', h3⟩ := except_bind_ok h2
        simp only [pure, Except.pure, Except.ok.injEq] at h3
        exact ⟨r0, .matrix nm, rs', rfl, hr0, hrs', h3.symm⟩
      | listN nl =>
        obtain ⟨ni, hni, h1'⟩ := except_bind_ok h
        obtain ⟨r0, hr0, h2⟩ := except_bind_ok h1'
        obtain ⟨rs', hrs', h3⟩ := except_bind_ok h2
        simp only [pure, Except.pure, Except.ok.injEq] at h3
        exact ⟨r0, ni, rs', hni, hr0, hrs', h3.symm⟩
      | dictN nd =>
        obtain ⟨ni, hni, h1'⟩ := except_bind_ok h
        obtain ⟨r0, hr0, h2⟩ := except_bind_ok h1'
        obtain ⟨rs', hrs', h3⟩ := except_bind_ok h2
        simp only [pure, Except.pure, Except.ok.injEq] at h3
        exact ⟨r0, ni, rs', hni, hr0, hrs', h3.symm⟩
    obtain ⟨r0, ni, rs', hni, hr0, hrs', hrseq⟩ := main
    subst hrseq
    obtain ⟨hlen, helem⟩ := ih (i0 + 1) rs' hrs'
    refine ⟨by simp [hlen], ?_⟩
    intro i y hy
    cases i with
    | zero =>
      simp only [List.get?] at hy
      cases hy
      exact ⟨ni, hni, by simpa using hr0⟩
    | succ n =>
      simp only [List.get?] at hy
      obtain ⟨ni', hni', hcr⟩ := helem n y hy
      refine ⟨ni', ?_, by simpa using hcr⟩
      rw [show i0 + (n + 1) = i0 + 1 + n from by omega]
      exact hni'

/-- What `calc_rdm_movie`'s collection loop produces: only the method, the
descriptor and the (indexed) noise are forwarded; `cv_descriptor`, the prior
parameters, the time descriptor and the bins revert to defaults. -/
lemma calcRdmMovieColl_ok {ops : NumOps} {method : String}
    {descriptor : Option String} {noise : Noise} :
    ∀ (l : List TDataInput) (i0 : ℕ) (rs : List RDMs),
      calcRdmMovieColl ops l method descriptor noise i0 = .ok rs →
      rs.length = l.length ∧
      ∀ i x, l.get? i = some x → ∃ ni, noiseFor noise (i0 + i) = .ok ni ∧
        calc_rdm_movie ops x method descriptor ni none 1 (1/10) "time" none =
          .ok (rs.getD i default) := by
  intro l
  induction l with
  | nil =>
    intro i0 rs h
    simp only [calcRdmMovieColl, pure, Except.pure, Except.ok.injEq] at h
    subst h
    exact ⟨rfl, by intro i x hx; simp at hx⟩
  | cons x xs ih =>
    intro i0 rs h
    simp only [calcRdmMovieColl] at h
    have main : ∃ r0 ni rs', noiseFor noise i0 = .ok ni ∧
        calc_rdm_movie ops x method descriptor ni none 1 (1/10) "time" none
          = .ok r0 ∧
        calcRdmMovieColl ops xs method descriptor noise (i0 + 1) = .ok rs' ∧
        rs = r0 :: rs' := by
      cases noise with
      | nothing =>
        obtain ⟨r0, hr0, h2⟩ := except_bind_ok h
        obtain ⟨rs', hrs', h3⟩ := except_bind_ok h2
        simp only [pure, Except.pure, Except.ok.injEq] at h3
        exact ⟨r0, .nothing, rs', rfl, hr0, hrs', h3.symm⟩
      | matrix nm =>
        obtain ⟨r0, hr0, h2⟩ := except_bind_ok h
        obtain ⟨rs', hrs', h3⟩ := except_bind_ok h2
        simp only [pure, Except.pure, Except.ok.injEq] at h3
        exact ⟨r0, .matrix nm, rs', rfl, hr0, hrs', h3.symm⟩
      | listN nl =>
        obtain ⟨ni, hni, h1'⟩ := except_bind_ok h
        obtain ⟨r0, hr0, h2⟩ := except_bind_ok h1'
        obtain ⟨rs', hrs', h3⟩ := except_bind_ok h2
        simp only [pure, Except.pure, Except.ok.injEq] at h3
        exact ⟨r0, ni, rs', hni, hr0, hrs', h3.symm⟩
      | dictN nd =>
        obtain ⟨ni, hni, h1'⟩ := except_bind_ok h
        obtain ⟨r0, hr0, h2⟩ := except_bind_ok h1'
        obtain ⟨rs', hrs', h3⟩ := except_bind_ok h2
        simp only [pure, Except.pure, Except.ok.injEq] at h3
        exact ⟨r0, ni, rs', hni, hr0, hrs', h3.symm⟩
    obtain ⟨r0, ni, rs', hni, hr0, hrs', hrseq⟩ := main
    subst hrseq
    obtain ⟨hlen, helem⟩ := ih (i0 + 1) rs' hrs'
    refine ⟨by simp [hlen], ?_⟩
    intro i y hy
    cases i with
    | zero =>
      simp only [List.get?] at hy
      cases hy
      exact ⟨ni, hni, by simpa using hr0⟩
    | succ n =>
      simp only [List.get?] at hy
      obtain ⟨ni', hni', hcr⟩ := helem n y hy
      refine ⟨ni', ?_, by simpa using hcr⟩
      rw [show i0 + (n + 1) = i0 + 1 + n from by omega]
      exact hni'

/-- C8 (amended): `calc_rdm` over a collection applies the same call — same
method, descriptor, cv_descriptor and prior parameters, with the noise
broadcast or indexed per element — to each element and concatenates the
results preserving element order; `calc_rdm_movie` over a collection,
however, forwards only the method, the descriptor and the noise: its
`cv_descriptor`, prior parameters, time descriptor and bins revert to their
defaults in the per-element calls. -/
theorem C8_collection_fanout :
    (∀ (ops : NumOps) (l : List DataInput) (method : String)
       (descriptor : Option String) (noise : Noise) (cvd : Option String)
       (pl pw : ℚ) (r : RDMs),
       calc_rdm ops (.coll l) method descriptor noise cvd pl pw = .ok r →
       ∃ rs, r = concatRDMs rs ∧ rs.length = l.length ∧
         r.dissimilarities = (rs.map RDMs.dissimilarities).flatten ∧
         ∀ i x, l.get? i = some x → ∃ ni, noiseFor noise i = .ok ni ∧
           calc_rdm ops x method descriptor ni cvd pl pw =
             .ok (rs.getD i default))
  ∧ (∀ (ops : NumOps) (l : List TDataInput) (method : String)
       (descriptor : Option String) (noise : Noise) (cvd : Option String)
       (pl pw : ℚ) (td : String) (bins : Option (List (List ℕ))) (r : RDMs),
       calc_rdm_movie ops (.coll l) method descriptor noise cvd pl pw td bins
         = .ok r →
       ∃ rs, r = concatRDMs rs ∧ rs.length = l.length ∧
         r.dissimilarities = (rs.map RDMs.dissimilarities).flatten ∧
         ∀ i x, l.get? i = some x → ∃ ni, noiseFor noise i = .ok ni ∧
           calc_rdm_movie ops x method descriptor ni none 1 (1/10) "time" none
             = .ok (rs.getD i default)) := by
  constructor
  · intro ops l method descriptor noise cvd pl pw r h
    rw [calc_rdm] at h
    obtain ⟨rs, hrs, h2⟩ := except_bind_ok h
    simp only [pure, Except.pure, Except.ok.injEq] at h2
    obtain ⟨hlen, helem⟩ := calcRdmColl_ok l 0 rs hrs
    refine ⟨rs, h2.symm, hlen, by rw [← h2]; rfl, ?_⟩
    intro i x hx
    simpa using helem i x hx
  · intro ops l method descriptor noise cvd pl pw td bins r h
    rw [calc_rdm_movie] at h
    obtain ⟨rs, hrs, h2⟩ := except_bind_ok h
    simp only [pure, Except.pure, Except.ok.injEq] at h2
    obtain ⟨hlen, helem⟩ := calcRdmMovieColl_ok l 0 rs hrs
    refine ⟨rs, h2.symm, hlen, by rw [← h2]; rfl, ?_⟩
    intro i x hx
    simpa using helem i x hx

/-- Counterexample for C8: one temporal dataset with two time samples, one
time bin `[[0,1]]` covering both.  Called directly, `calc_rdm_movie` honours
the bin and returns one RDM; called on the one-element collection wrapping
the same dataset with the same arguments, the bins are dropped in the
recursion and two RDMs come back — not the concatenation of the same call on
the element. -/
theorem C8_collection_fanout_counterexample :
    (calc_rdm_movie idOps
        (.coll [.single ⟨[[[1,2],[3,4]],[[5,7],[9,6]]], [], [("time",[0,1])]⟩])
        "euclidean" none .nothing none 1 (1/10) "time"
        (some [[0,1]])).map RDMs.dissimilarities = .ok [[26],[29/2]]
  ∧ (calc_rdm_movie idOps
        (.single ⟨[[[1,2],[3,4]],[[5,7],[9,6]]], [], [("time",[0,1])]⟩)
        "euclidean" none .nothing none 1 (1/10) "time"
        (some [[0,1]])).map RDMs.dissimilarities = .ok [[145/8]]
  ∧ ([[26],[29/2]] : Mat) ≠ ([[145/8]] : Mat) := by
  refine ⟨?_, ?_, by norm_num⟩
  · norm_num [calc_rdm_movie, calcRdmMovieColl, calc_rdm,
      TemporalDataset.split_time, TemporalDataset.bin_time,
      TemporalDataset.lookupTime, TemporalDataset.convert_to_dataset,
      calc_rdm_euclid, parse_input, calc_pairwise_differences, pairsUpper,
      row, vsub, dotQ, shape1, mkRDMsVec, rowMean, concatRDMs,
      setRdmTimeDesc, List.range_succ, List.find?, Bind.bind, Except.bind,
      pure, Except.pure, List.mapM_cons, List.mapM_nil, List.mapM,
      List.mapM.loop, Except.map, idOps]
  · norm_num [calc_rdm_movie, calc_rdm, TemporalDataset.split_time,
      TemporalDataset.bin_time, TemporalDataset.lookupTime,
      TemporalDataset.convert_to_dataset, calc_rdm_euclid, parse_input,
      calc_pairwise_differences, pairsUpper, row, vsub, dotQ, shape1,
      mkRDMsVec, rowMean, concatRDMs, setRdmTimeDesc, List.range_succ,
      List.find?, Bind.bind, Except.bind, pure, Except.pure, List.mapM_cons,
      List.mapM_nil, List.mapM, List.mapM.loop, Except.map, idOps]

/-- Witness for C8: the `calc_rdm` clause applied to a one-element
collection around the canonical fixture. -/
theorem C8_collection_fanout_witness :
    ∃ rs, concatRDMs [⟨[[1/2, 1/2, 1, 1, 1/2, 1/2]], "euclidean", []⟩] =
        concatRDMs rs ∧
      rs.length = ([DataInput.single ⟨[[0,0],[1,0],[0,1],[1,1]], []⟩] :
        List DataInput).length ∧
      (concatRDMs [⟨[[1/2, 1/2, 1, 1, 1/2, 1/2]], "euclidean",
          []⟩]).dissimilarities = (rs.map RDMs.dissimilarities).flatten ∧
      ∀ i x, ([DataInput.single ⟨[[0,0],[1,0],[0,1],[1,1]], []⟩] :
          List DataInput).get? i = some x →
        ∃ ni, noiseFor .nothing i = .ok ni ∧
          calc_rdm idOps x "euclidean" none ni none 1 (1/10) =
            .ok (rs.getD i default) :=
  C8_collection_fanout.1 idOps
    [DataInput.single ⟨[[0,0],[1,0],[0,1],[1,1]], []⟩]
    "euclidean" none .nothing none 1 (1/10)
    (concatRDMs [⟨[[1/2, 1/2, 1, 1, 1/2, 1/2]], "euclidean", []⟩])
    (by norm_num [calc_rdm, calcRdmColl, calc_rdm_euclid, parse_input,
      calc_pairwise_differences, pairsUpper, row, vsub, dotQ, shape1,
      mkRDMsVec, concatRDMs, List.range_succ, Bind.bind, Except.bind, pure,
      Except.pure, Except.map, idOps])

end PyRSA
